import Mathlib

/-!
Verification development for the thin-liquidity SCALP bot (src/bot.js).

The JavaScript source is shallowly embedded:
* SOL amounts, price impacts and percentages (JS `Number`) are modelled as
  exact rationals `ℚ`; lamports and raw token amounts (JS `BigInt`) as `ℕ`
  (signed intermediate balances as `ℤ`).
* The Jupiter quote endpoint is an external oracle: a function from the call
  index (quotes are requested sequentially and the market may move between
  calls), the requested raw amount and the slippage bound to a response.
* `async`/`await` control flow is straight-line; each loop of the source is a
  fuel-indexed or structurally recursive Lean function.
-/

namespace SolScalp

/-- JS `x.toFixed(6)` for the non-negative amounts used by `buyBySol`:
round to 6 decimal places, ties away from zero. -/
def toFixed6 (q : ℚ) : ℚ :=
  ((⌊q * 1000000 + 1/2⌋ : ℤ) : ℚ) / 1000000

/-- The `THIN` tuning record of bot.js (env-driven caps). -/
structure ThinCfg where
  slippageBase : ℕ
  slippageCap : ℕ
  targetImpact : ℚ
  hardImpact : ℚ
  maxShards : ℕ
  minShardSol : ℚ
  shardDelayMs : ℕ
  exitShards : ℕ
  exitDelayMs : ℕ
deriving Repr, DecidableEq

/-- The default `THIN` values of bot.js (env defaults). -/
def defaultThin : ThinCfg :=
  { slippageBase := 200
    slippageCap := 500
    targetImpact := 2
    hardImpact := 5
    maxShards := 5
    minShardSol := 1/200      -- 0.005 SOL
    shardDelayMs := 800
    exitShards := 3
    exitDelayMs := 1200 }

/-- A Jupiter route as used by bot.js: `inAmount`, `outAmount` and
`priceImpactPct`.  `inAmount = none` models a missing/falsy field (the code
falls back to the requested amount via `route.inAmount || lamports`);
`priceImpactPct = none` models `extractImpactPct` returning `NaN`. -/
structure Route where
  inAmount : Option ℕ
  outAmount : ℕ
  priceImpactPct : Option ℚ
deriving Repr, DecidableEq

/-- Result of one `jupQuote` request: a route, or a thrown error
(`Quote failed` / `No route`). -/
inductive QuoteResp where
  | ok (r : Route)
  | err
deriving Repr, DecidableEq

/-- The quote provider: call index → requested raw amount → slippage bps →
response.  The call index makes the oracle stateful enough to return
different routes for identical amounts at different times. -/
abbrev Oracle := ℕ → ℕ → ℕ → QuoteResp

/-- `route.inAmount || fallback` of bot.js (missing field falls back to the
amount that was requested). -/
def effectiveIn (r : Route) (fallback : ℕ) : ℕ :=
  match r.inAmount with
  | some n => n
  | none => fallback

/-- `!Number.isNaN(impact) && impact > c` of bot.js. -/
def impGT (imp : Option ℚ) (c : ℚ) : Bool :=
  match imp with
  | some i => decide (c < i)
  | none => false

/-- `!Number.isNaN(a) && a <= b` of bot.js (both impacts present and the
first at most the second). -/
def impLE (a b : Option ℚ) : Bool :=
  match a, b with
  | some x, some y => decide (x ≤ y)
  | _, _ => false

/-- `Number((amountSol / THIN.MAX_SHARDS).toFixed(6))` of `buyBySol`.
(For `maxShards = 0` JS produces `Infinity` where `ℚ` division gives 0; the
shard loop never runs in that case in either semantics, so no behaviour
visible in results diverges.) -/
def perShardSol (cfg : ThinCfg) (amountSol : ℚ) : ℚ :=
  toFixed6 (amountSol / (cfg.maxShards : ℚ))

/-- `Math.floor(sol * 1e9)` of bot.js, clamped to ℕ (all shard sizes the
code floors are positive). -/
def lamportsOf (sol : ℚ) : ℕ :=
  (⌊sol * 1000000000⌋).toNat

/-- State of the `buyBySol` shard loop.  `executed` records every shard that
was actually executed via `jupBuildAndSend`, as (requested lamports, route). -/
structure BuySt where
  remainingSol : ℚ
  spentLamports : ℕ
  receivedRaw : ℕ
  shards : ℕ
  callIdx : ℕ
  executed : List (ℕ × Route)
deriving Repr, DecidableEq

/-- Errors `buyBySol` can throw. -/
inductive BuyErr where
  | quoteFail                 -- a `jupQuote` rejection propagates
  | hardImpact (impact : ℚ)   -- `Price impact too high (...)`
  | zeroOutput                -- `Buy produced zero output.`
deriving Repr, DecidableEq

/-- Result of `buyBySol`; the final loop state is kept in every case so the
executed shards stay observable. -/
inductive BuyRes where
  | okRes (st : BuySt)
  | errRes (e : BuyErr) (st : BuySt)
  | outOfFuel (st : BuySt)
deriving Repr, DecidableEq

/-- Loop state carried by a `BuyRes`. -/
def BuyRes.state : BuyRes → BuySt
  | .okRes st => st
  | .errRes _ st => st
  | .outOfFuel st => st

/-- The shard size proposed at the top of a `buyBySol` loop iteration:
`Math.max(Math.min(remainingSol, perShard), THIN.MIN_SHARD_SOL)`. -/
def proposedSolOf (cfg : ThinCfg) (amountSol : ℚ) (rem : ℚ) : ℚ :=
  max (min rem (perShardSol cfg amountSol)) cfg.minShardSol

/-- Bookkeeping after `jupBuildAndSend` succeeds for a shard: accumulate
spent/received, decrease the remaining target by the executed SOL size,
count the shard and record it. -/
def execShard (st : BuySt) (reqLamports : ℕ) (r : Route) (sol : ℚ) : BuySt :=
  { st with
    spentLamports := st.spentLamports + effectiveIn r reqLamports
    receivedRaw := st.receivedRaw + r.outAmount
    remainingSol := st.remainingSol - sol
    shards := st.shards + 1
    executed := st.executed ++ [(reqLamports, r)] }

/-- Outcome of one iteration of the `buyBySol` while-loop body. -/
inductive StepRes where
  | cont (st : BuySt)
  | fail (e : BuyErr) (st : BuySt)
deriving Repr, DecidableEq

/-- One iteration of the `buyBySol` while-loop body (bot.js lines 216-254):
quote the proposed shard; on hard-impact either throw (at minimum size) or
shave half the proposed size off the remaining target and retry; on
soft-impact probe a half-size route and execute it if its impact is no
worse; otherwise execute the proposed route. -/
def buyStep (cfg : ThinCfg) (oracle : Oracle) (amountSol : ℚ) (slip : ℕ)
    (st : BuySt) : StepRes :=
  let proposedSol := proposedSolOf cfg amountSol st.remainingSol
  let lamports := lamportsOf proposedSol
  match oracle st.callIdx lamports slip with
  | .err => .fail .quoteFail { st with callIdx := st.callIdx + 1 }
  | .ok route =>
    let st1 := { st with callIdx := st.callIdx + 1 }
    if impGT route.priceImpactPct cfg.hardImpact then
      if proposedSol ≤ cfg.minShardSol + 1/1000000000 then
        .fail (.hardImpact ((route.priceImpactPct).getD 0)) st1
      else
        .cont { st1 with remainingSol := max (st1.remainingSol - proposedSol / 2) 0 }
    else if impGT route.priceImpactPct cfg.targetImpact ∧ cfg.minShardSol < proposedSol then
      let smallerSol := max (proposedSol / 2) cfg.minShardSol
      let smallerLamports := lamportsOf smallerSol
      match oracle st1.callIdx smallerLamports slip with
      | .err => .fail .quoteFail { st1 with callIdx := st1.callIdx + 1 }
      | .ok smallerRoute =>
        let st2 := { st1 with callIdx := st1.callIdx + 1 }
        if impLE smallerRoute.priceImpactPct route.priceImpactPct then
          .cont (execShard st2 smallerLamports smallerRoute smallerSol)
        else
          .cont (execShard st2 lamports route proposedSol)
    else
      .cont (execShard st1 lamports route proposedSol)

/-- The `buyBySol` while-loop (`while (remainingSol > 0 && shards <
THIN.MAX_SHARDS)`), fuel-indexed.  On normal exit the trailing
`if (receivedRaw <= 0n) throw` check runs. -/
def buyLoop (cfg : ThinCfg) (oracle : Oracle) (amountSol : ℚ) (slip : ℕ) :
    ℕ → BuySt → BuyRes
  | 0, st => .outOfFuel st
  | fuel + 1, st =>
    if 0 < st.remainingSol ∧ st.shards < cfg.maxShards then
      match buyStep cfg oracle amountSol slip st with
      | .cont st' => buyLoop cfg oracle amountSol slip fuel st'
      | .fail e st' => .errRes e st'
    else
      if st.receivedRaw = 0 then .errRes .zeroOutput st else .okRes st

/-- `curSlip = Math.min(Number(slippageBps || THIN.SLIPPAGE_BASE),
THIN.SLIPPAGE_CAP)`; 0 is falsy in JS. -/
def curSlipOf (cfg : ThinCfg) (slippageBps : ℕ) : ℕ :=
  min (if slippageBps = 0 then cfg.slippageBase else slippageBps) cfg.slippageCap

/-- Initial loop state of `buyBySol`. -/
def initBuySt (amountSol : ℚ) : BuySt :=
  { remainingSol := amountSol
    spentLamports := 0
    receivedRaw := 0
    shards := 0
    callIdx := 0
    executed := [] }

/-- `buyBySol({ mint, amountSol, slippageBps })` of bot.js (lines 209-264),
parametric in the tuning record and the quote oracle. -/
def buyBySol (cfg : ThinCfg) (oracle : Oracle) (amountSol : ℚ)
    (slippageBps : ℕ) (fuel : ℕ) : BuyRes :=
  buyLoop cfg oracle amountSol (curSlipOf cfg slippageBps) fuel
    (initBuySt amountSol)

/-- State of the `sellTokensForSol` shard loop.  `remaining` is a JS
`BigInt`, hence `ℤ`; `slices` records the raw input amount requested for
each executed shard. -/
structure SellSt where
  remaining : ℤ
  soldLamports : ℕ
  callIdx : ℕ
  slices : List ℤ
deriving Repr, DecidableEq

/-- Result of `sellTokensForSol`. -/
inductive SellRes where
  | okRes (st : SellSt)
  | quoteFail (st : SellSt)
  | nothingToSell
deriving Repr, DecidableEq

/-- The `sellTokensForSol` for-loop (bot.js lines 274-291), structurally
recursive on the number of shard slots left (`shards - i`).  The slot
currently processed is the last one exactly when one slot is left; the
slice is the remaining balance for the last slot and the truncated division
`remaining / BigInt(shards - i)` otherwise; a non-positive slice breaks. -/
def sellLoop (oracle : Oracle) (slip : ℕ) : ℕ → SellSt → SellRes
  | 0, st => .okRes st
  | slotsLeft + 1, st =>
    let slice : ℤ :=
      if slotsLeft = 0 then st.remaining else Int.tdiv st.remaining (slotsLeft + 1)
    if slice ≤ 0 then .okRes st
    else
      match oracle st.callIdx slice.toNat slip with
      | .err => .quoteFail { st with callIdx := st.callIdx + 1 }
      | .ok route =>
        sellLoop oracle slip slotsLeft
          { remaining := st.remaining - (effectiveIn route slice.toNat : ℤ)
            soldLamports := st.soldLamports + route.outAmount
            callIdx := st.callIdx + 1
            slices := st.slices ++ [slice] }

/-- `sellTokensForSol({ mint, amountRaw, slippageBps })` of bot.js (lines
266-294).  `const shards = Math.min(THIN.EXIT_SHARDS, Number(THIN.EXIT_SHARDS))`
is just `THIN.EXIT_SHARDS`. -/
def sellTokensForSol (cfg : ThinCfg) (oracle : Oracle) (amountRaw : ℤ)
    (slippageBps : ℕ) : SellRes :=
  if amountRaw ≤ 0 then .nothingToSell
  else
    sellLoop oracle (curSlipOf cfg slippageBps) cfg.exitShards
      { remaining := amountRaw, soldLamports := 0, callIdx := 0, slices := [] }

/-- The executed slice list carried by a `SellRes`. -/
def SellRes.slicesOf : SellRes → List ℤ
  | .okRes st => st.slices
  | .quoteFail st => st.slices
  | .nothingToSell => []

/-- A `positions[mint]` entry of bot.js.  Timestamps are abstract `ℤ`
millisecond counts (`createdAt`/`lastCheck` hold ISO strings in the source;
only presence and freshness matter here). -/
structure Position where
  mint : String
  entrySolSpent : ℚ
  entryTokenRecvRaw : ℕ
  tpPct : ℚ
  slPct : ℚ
  createdAt : ℤ
  lastCheck : Option ℤ
  profileUsed : String
  tookPartialTP : Bool
deriving Repr, DecidableEq

/-- `pnlPct = ((estSol - entrySol) / entrySol) * 100` of `monitorPositions`. -/
def pnlPctOf (entrySol estSol : ℚ) : ℚ :=
  (estSol - entrySol) / entrySol * 100

/-- `Number(estLamports) / 1e9`. -/
def estSolOf (estLamports : ℕ) : ℚ :=
  (estLamports : ℚ) / 1000000000

/-- Observable effect of one `monitorPositions` loop body on one position:
the entry left in the store (`none` = deleted), the raw amount passed to
`sellTokensForSol` (`none` = no sell attempted), and whether a Telegram
notification was sent (`bot.telegram.sendMessage` runs only when
`lastChatId` is set). -/
structure MonEffect where
  pos : Option Position
  soldRaw : Option ℕ
  notified : Bool
deriving Repr, DecidableEq

/-- One iteration of the `monitorPositions` per-mint loop (bot.js lines
512-555) on the happy path where the balance query, the re-pricing quote
and any sell succeed.  `tokenBalRaw` is the fetched on-chain balance,
`estLamports` the quoted SOL value of the full balance, `now` the timestamp
written into `lastCheck`, `lastChatId` the stored notification chat. -/
def monitorPosition (p : Position) (tokenBalRaw : ℕ) (estLamports : ℕ)
    (now : ℤ) (lastChatId : Option ℤ) : MonEffect :=
  if tokenBalRaw = 0 then
    { pos := none, soldRaw := none, notified := false }
  else
    let estSol := estSolOf estLamports
    let entrySol := p.entrySolSpent
    if entrySol ≤ 0 then
      { pos := some p, soldRaw := none, notified := false }
    else
      let pnlPct := pnlPctOf entrySol estSol
      let p1 := { p with lastCheck := some now }
      let hitTP := p.tpPct ≤ pnlPct
      let hitSL := pnlPct ≤ -p.slPct
      if ¬hitTP ∧ ¬hitSL then
        { pos := some p1, soldRaw := none, notified := false }
      else if hitSL then
        { pos := none, soldRaw := some tokenBalRaw, notified := lastChatId.isSome }
      else
        if ¬p.tookPartialTP then
          let toSell := tokenBalRaw / 2
          if 0 < toSell then
            { pos := some { p1 with slPct := 0, tookPartialTP := true }
              soldRaw := some toSell
              notified := lastChatId.isSome }
          else
            { pos := some p1, soldRaw := none, notified := false }
        else
          { pos := none, soldRaw := some tokenBalRaw, notified := lastChatId.isSome }

/-- Hard-coded SCALP take-profit trigger (`SCALP_TP_PCT = 20`). -/
def SCALP_TP_PCT : ℚ := 20

/-- Hard-coded SCALP stop-loss trigger (`SCALP_SL_PCT = 10`). -/
def SCALP_SL_PCT : ℚ := 10

/-- A Dexscreener pair as read by `selectCandidates`.  `chainOk` models
`p.chainId === 'solana' || /solana/i.test(p.chainId || '')`; numeric fields
are the `Number(... || 0)` coercions of the nested JSON fields. -/
structure Pair where
  chainOk : Bool
  baseMint : Option String
  liqUsd : ℚ
  vol5m : ℚ
  buys5m : ℚ
  change5m : ℚ
deriving Repr, DecidableEq

/-- The persistent `AUTOPILOT` configuration object. -/
structure ApCfg where
  enabled : Bool
  budgetSol : ℚ
  maxOpen : ℕ
  minLiqUsd : ℚ
  minVol5m : ℚ
  minBuys5m : ℚ
  minChange5m : ℚ
  cooldownMs : ℤ
  blacklist : List String
  lastBuyAt : ℤ
  lastTried : List (String × ℤ)
deriving Repr, DecidableEq

/-- `AUTOPILOT.lastTried[mint] || 0`. -/
def lastTriedAt (cfg : ApCfg) (mint : String) : ℤ :=
  ((cfg.lastTried.find? (fun e => e.1 = mint)).map (·.2)).getD 0

/-- `AUTOPILOT.lastTried[mint] = ts` (overwrite or insert). -/
def setLastTried (l : List (String × ℤ)) (mint : String) (ts : ℤ) :
    List (String × ℤ) :=
  if l.any (fun e => e.1 = mint) then
    l.map (fun e => if e.1 = mint then (mint, ts) else e)
  else
    l ++ [(mint, ts)]

/-- The position store `positions` (keyed by mint). -/
abbrev PosStore := List (String × Position)

/-- `positions[mint]` (truthiness of the stored object). -/
def lookupPos (store : PosStore) (mint : String) : Option Position :=
  (store.find? (fun e => e.1 = mint)).map (·.2)

/-- `positions[mint] = p` (overwrite or insert). -/
def insertPos (store : PosStore) (mint : String) (p : Position) : PosStore :=
  if store.any (fun e => e.1 = mint) then
    store.map (fun e => if e.1 = mint then (mint, p) else e)
  else
    store ++ [(mint, p)]

/-- A filtered pair mapped to `{ baseMint, score }` with
`score = buys5m * 2 + vol5m / 500 + change5m`. -/
structure Scored where
  baseMint : String
  score : ℚ
deriving Repr, DecidableEq

/-- The gate predicate of `selectCandidates` (bot.js lines 575-598): Solana
chain, base mint present, not blacklisted, all four numeric filters, and the
per-mint retry cooldown elapsed. -/
def pairPasses (cfg : ApCfg) (now : ℤ) (p : Pair) : Bool :=
  p.chainOk &&
  p.baseMint.isSome &&
  !(cfg.blacklist.contains (p.baseMint.getD "")) &&
  !(p.liqUsd < cfg.minLiqUsd) &&
  !(p.vol5m < cfg.minVol5m) &&
  !(p.buys5m < cfg.minBuys5m) &&
  !(p.change5m < cfg.minChange5m) &&
  !(now - lastTriedAt cfg (p.baseMint.getD "") < cfg.cooldownMs)

/-- `.map(...)` step of `selectCandidates`. -/
def scorePair (p : Pair) : Scored :=
  { baseMint := p.baseMint.getD ""
    score := p.buys5m * 2 + p.vol5m / 500 + p.change5m }

/-- The picks loop of `selectCandidates`: walk the sorted candidates, stop
at `room`, skip mints already held. -/
def pickLoop (store : PosStore) (room : ℕ) : List Scored → List String →
    List String
  | [], picks => picks
  | s :: rest, picks =>
    if room ≤ picks.length then picks
    else if (lookupPos store s.baseMint).isSome then pickLoop store room rest picks
    else pickLoop store room rest (picks ++ [s.baseMint])

/-- `selectCandidates(pairs)` of bot.js (lines 566-616): capacity check,
gate filter, scoring, descending sort, then the picks loop. -/
def selectCandidates (store : PosStore) (cfg : ApCfg) (now : ℤ)
    (pairs : List Pair) : List String :=
  let room : ℕ := cfg.maxOpen - store.length
  if room = 0 then []
  else
    let filtered :=
      ((pairs.filter (pairPasses cfg now)).map scorePair).mergeSort
        (fun a b => decide (b.score ≤ a.score))
    pickLoop store room filtered []

/-- The position object written by the autopilot (and `/autobuy`) after a
successful `buyBySol`. -/
def mkPosition (mint : String) (spentLamports outRaw : ℕ) (now : ℤ)
    (profile : String) : Position :=
  { mint := mint
    entrySolSpent := (spentLamports : ℚ) / 1000000000
    entryTokenRecvRaw := outRaw
    tpPct := SCALP_TP_PCT
    slPct := SCALP_SL_PCT
    createdAt := now
    lastCheck := none
    profileUsed := profile
    tookPartialTP := false }

/-- Input consumed by one `autopilotLoop` invocation.  `now` stands for
every `Date.now()` call within the pass; `pairs = none` models a thrown
Dexscreener fetch; `buyRes mint` is the observable result of
`verifyMintExists` + `buyBySol` for that mint — `none` when either throws,
`some (outAmountRaw, totalSpentLamports, shardsExecuted)` on success. -/
structure PassIn where
  now : ℤ
  pairs : Option (List Pair)
  buyRes : String → Option (ℕ × ℕ × ℕ)

/-- Mutable state an autopilot pass touches: the config singleton and the
position store. -/
structure ApState where
  cfg : ApCfg
  store : PosStore

/-- The candidate loop of `autopilotLoop` (bot.js lines 626-658): stamp
`lastTried`, attempt the buy; on failure log and continue, on success
record the position, set `lastBuyAt` and break.  Returns the new state and
the (time, mint) log of successful autonomous entries of this pass. -/
def attemptLoop (inp : PassIn) : ApState → List String →
    ApState × List (ℤ × String)
  | st, [] => (st, [])
  | st, mint :: rest =>
    let cfg1 := { st.cfg with lastTried := setLastTried st.cfg.lastTried mint inp.now }
    match inp.buyRes mint with
    | none => attemptLoop inp { st with cfg := cfg1 } rest
    | some (outRaw, spentLamports, _shards) =>
      let pos := mkPosition mint spentLamports outRaw inp.now "SCALP-THIN-AUTO"
      ({ cfg := { cfg1 with lastBuyAt := inp.now }
         store := insertPos st.store mint pos },
       [(inp.now, mint)])

/-- One `autopilotLoop` invocation (bot.js lines 617-662): bail out when
disabled or inside the global cooldown, fetch pairs, select candidates and
run the attempt loop. -/
def autopilotLoop (st : ApState) (inp : PassIn) : ApState × List (ℤ × String) :=
  if ¬st.cfg.enabled then (st, [])
  else if inp.now - st.cfg.lastBuyAt < st.cfg.cooldownMs then (st, [])
  else
    match inp.pairs with
    | none => (st, [])
    | some pairs =>
      attemptLoop inp st (selectCandidates st.store st.cfg inp.now pairs)

/-- A *serialized* sequence of `autopilotLoop` invocations: each pass
completes before the next timer tick fires, so state is threaded and the
entry logs concatenate.  This is a restriction of the program's real
scheduling — `setInterval` re-invokes the async `autopilotLoop` whether or
not the previous invocation has finished; the general overlapping semantics
is the task machine `apStep`/`apRun` below. -/
def autopilotRun (st : ApState) : List PassIn → ApState × List (ℤ × String)
  | [] => (st, [])
  | inp :: rest =>
    ((autopilotRun (autopilotLoop st inp).1 rest).1,
     (autopilotLoop st inp).2 ++ (autopilotRun (autopilotLoop st inp).1 rest).2)

/-- Abstract events of one cooperative task, in program order: suspension
points (`await`), in-memory mutations of the position store or the
autopilot config (tagged by which field), and the corresponding full-file
rewrites (`savePositions` / `saveAutopilotCfg`). -/
inductive Ev where
  | yield
  | mutStore (tag : String)
  | mutCfg (tag : String)
  | persistStore
  | persistCfg
deriving Repr, DecidableEq

/-- Scan forward for `target` without crossing a suspension point. -/
def flushedBy (target : Ev) : List Ev → Bool
  | [] => false
  | .yield :: _ => false
  | e :: rest => if e = target then true else flushedBy target rest

/-- Every mutation whose tag is selected by `tags` is followed by the
matching durable rewrite before the task next suspends or returns. -/
def allFlushed (tags : String → Bool) : List Ev → Bool
  | [] => true
  | .mutStore t :: rest =>
    (!tags t || flushedBy .persistStore rest) && allFlushed tags rest
  | .mutCfg t :: rest =>
    (!tags t || flushedBy .persistCfg rest) && allFlushed tags rest
  | _ :: rest => allFlushed tags rest

/-- Event trace of one `monitorPositions` per-mint iteration (bot.js lines
512-555).  `balOk`/`estOk`/`sellOk` state whether the balance query, the
re-pricing quote and the sell succeed; a `false` means the corresponding
await throws and the per-mint try/catch swallows the rest of the body. -/
def monitorPosTrace (p : Position) (balOk : Bool) (tokenBalRaw : ℕ)
    (estOk : Bool) (estLamports : ℕ) (sellOk : Bool) : List Ev :=
  [.yield] ++                                  -- await getTokenRawBalance
  if ¬balOk then []
  else if tokenBalRaw = 0 then [.mutStore "delete", .persistStore]
  else
    [.yield] ++                                -- await estimateSolForToken
    if ¬estOk then []
    else
      let estSol := estSolOf estLamports
      let entrySol := p.entrySolSpent
      if entrySol ≤ 0 then []
      else
        let pnlPct := pnlPctOf entrySol estSol
        let hitTP := p.tpPct ≤ pnlPct
        let hitSL := pnlPct ≤ -p.slPct
        [.mutStore "lastCheck"] ++             -- positions[mint].lastCheck = now
        if ¬hitTP ∧ ¬hitSL then []
        else if hitSL then
          [.yield] ++                          -- await sellTokensForSol
          if sellOk then [.mutStore "delete", .persistStore] else []
        else if ¬p.tookPartialTP then
          if 0 < tokenBalRaw / 2 then
            [.yield] ++                        -- await sellTokensForSol
            if sellOk then [.mutStore "partialFlags", .persistStore] else []
          else []
        else
          [.yield] ++                          -- await sellTokensForSol
          if sellOk then [.mutStore "delete", .persistStore] else []

/-- Event trace of the candidate loop of `autopilotLoop`; one
`(verifyOk, buyOk)` flag pair per candidate. -/
def attemptsTrace : List (Bool × Bool) → List Ev
  | [] => []
  | (verifyOk, buyOk) :: rest =>
    [.mutCfg "lastTried", .persistCfg, .yield] ++   -- await verifyMintExists
    if ¬verifyOk then attemptsTrace rest
    else
      [.yield] ++                                   -- await buyBySol
      if ¬buyOk then attemptsTrace rest
      else
        [.mutStore "position", .persistStore,
         .mutCfg "lastBuyAt", .persistCfg]          -- then break

/-- Event trace of one `autopilotLoop` invocation (bot.js lines 617-662). -/
def apPassTrace (enabled cooldownPassed fetchOk : Bool)
    (attempts : List (Bool × Bool)) : List Ev :=
  if ¬enabled then []
  else if ¬cooldownPassed then []
  else
    [.yield] ++                                     -- await fetch pairs
    if ¬fetchOk then [] else attemptsTrace attempts

/-- A well-behaved quote provider for buys: every request yields a route
whose reported input does not exceed the requested amount (when the field is
present at all) and whose expected output is positive. -/
def BuyHonest (oracle : Oracle) : Prop :=
  ∀ i amt slip, ∃ r, oracle i amt slip = .ok r ∧
    (∀ n, r.inAmount = some n → n ≤ amt) ∧ 1 ≤ r.outAmount

/-- A well-behaved quote provider for sells: every request yields a route
whose reported input is exactly the requested amount (or the field is
absent, in which case the code falls back to the requested slice anyway). -/
def SellHonest (oracle : Oracle) : Prop :=
  ∀ i amt slip, ∃ r, oracle i amt slip = .ok r ∧
    (r.inAmount = none ∨ r.inAmount = some amt)

/-- The hard-cap slack bound of `buyBySol`: one shard of the larger of the
nominal per-shard size and the minimum shard size. -/
def shardSlack (cfg : ThinCfg) (amountSol : ℚ) : ℚ :=
  max (perShardSol cfg amountSol) cfg.minShardSol

/-- An oracle answering every request with the same route. -/
def oracleConst (r : Route) : Oracle := fun _ _ _ => .ok r

/-- A flat-market route: 1% impact, missing `inAmount`, output 1000 raw. -/
def routeFlat : Route := { inAmount := none, outAmount := 1000, priceImpactPct := some 1 }

/-- A route whose impact (6%) exceeds the default 5% hard cap. -/
def routeHighImpact : Route :=
  { inAmount := none, outAmount := 1000, priceImpactPct := some 6 }

/-- A position as created by `/autobuy` with 1 SOL entry cost. -/
def posScalp : Position :=
  { mint := "MINT"
    entrySolSpent := 1
    entryTokenRecvRaw := 1000000
    tpPct := SCALP_TP_PCT
    slPct := SCALP_SL_PCT
    createdAt := 0
    lastCheck := none
    profileUsed := "SCALP-THIN"
    tookPartialTP := false }

/-- A Dexscreener pair passing the default autopilot gates. -/
def pairHot : Pair :=
  { chainOk := true
    baseMint := some "HOTMINT"
    liqUsd := 10000
    vol5m := 3000
    buys5m := 40
    change5m := 8 }

/-- An autopilot config with the env defaults, enabled, and a last entry at
time 0. -/
def apCfg0 : ApCfg :=
  { enabled := true
    budgetSol := 1/50
    maxOpen := 3
    minLiqUsd := 6000
    minVol5m := 1500
    minBuys5m := 20
    minChange5m := 4
    cooldownMs := 1800000
    blacklist := []
    lastBuyAt := 0
    lastTried := [] }

/-- One autopilot pass input: scan at `t = 3600000` finding `pairHot`, with
the buy succeeding. -/
def passIn0 : PassIn :=
  { now := 3600000
    pairs := some [pairHot]
    buyRes := fun m => if m = "HOTMINT" then some (5000, 20000000, 1) else none }

/-- The default tuning with a single buy shard (used to exercise one full
`buyBySol` iteration concretely). -/
def cfgOne : ThinCfg := { defaultThin with maxShards := 1 }

/-- Loop state carried by a `StepRes`. -/
def StepRes.stateOf : StepRes → BuySt
  | .cont st => st
  | .fail _ st => st

/-!
Interleaved scheduling of `autopilotLoop` invocations.  `setInterval`
re-invokes the async `autopilotLoop` every 60 s whether or not the previous
invocation has finished, so several invocations can be in flight at once,
interleaving at their awaits (the Dexscreener fetch, `verifyMintExists`,
and `buyBySol`).  Each in-flight invocation is a task suspended at one of
those awaits; a schedule says which task resumes next and with what
environment input.  `autopilotRun` above is the restriction of this
semantics to non-overlapping invocations (each pass finishes before the
next timer tick).
-/

/-- Where one in-flight `autopilotLoop` invocation is suspended.
`atVerify`/`atBuy` carry the not-yet-attempted tail of the candidate list,
current candidate first. -/
inductive TaskPh where
  | atFetch
  | atVerify (cands : List String)
  | atBuy (cands : List String)
  | finished
deriving Repr, DecidableEq

/-- One scheduler event: a timer tick spawning a new invocation (which runs
its synchronous prologue — the enabled and global-cooldown checks — and
suspends at the fetch), or the completion of the await a given task is
suspended at, carrying that resumption's `Date.now()` and the await's
result. -/
inductive SchedEv where
  | spawn (now : ℤ)
  | fetchDone (tid : ℕ) (now : ℤ) (pairs : Option (List Pair))
  | verifyDone (tid : ℕ) (now : ℤ) (ok : Bool)
  | buyDone (tid : ℕ) (now : ℤ) (res : Option (ℕ × ℕ × ℕ))
deriving Repr, DecidableEq

/-- Shared mutable state, the in-flight tasks (indexed by spawn order) and
the log of successful autonomous entries. -/
structure ApSys where
  shared : ApState
  tasks : List TaskPh
  log : List (ℤ × String)

/-- Entering the candidate at the head of `cands` (bot.js line 628): stamp
`AUTOPILOT.lastTried[mint]` (persisted synchronously) and suspend at
`verifyMintExists`; an exhausted list ends the invocation. -/
def enterCand (cfg : ApCfg) (now : ℤ) : List String → ApCfg × TaskPh
  | [] => (cfg, .finished)
  | mint :: rest =>
    ({ cfg with lastTried := setLastTried cfg.lastTried mint now },
     .atVerify (mint :: rest))

/-- One scheduler step.  `spawn` runs the prologue of `autopilotLoop`
against the *current* shared config (the stale-read the timer permits);
resumption events advance the addressed task exactly as the code does:
fetch failure or an empty candidate list ends the pass, a verify or buy
failure is caught and the loop moves to the next candidate, and a
successful buy records the position, sets `lastBuyAt` and breaks.  An
event addressed at a task in a different phase is a no-op. -/
def apStep (sys : ApSys) : SchedEv → ApSys
  | .spawn now =>
    if ¬sys.shared.cfg.enabled then
      { sys with tasks := sys.tasks ++ [.finished] }
    else if now - sys.shared.cfg.lastBuyAt < sys.shared.cfg.cooldownMs then
      { sys with tasks := sys.tasks ++ [.finished] }
    else
      { sys with tasks := sys.tasks ++ [.atFetch] }
  | .fetchDone tid now pairs =>
    match sys.tasks[tid]? with
    | some .atFetch =>
      match pairs with
      | none => { sys with tasks := sys.tasks.set tid .finished }
      | some ps =>
        let cands := selectCandidates sys.shared.store sys.shared.cfg now ps
        let (cfg', ph) := enterCand sys.shared.cfg now cands
        { sys with
          shared := { sys.shared with cfg := cfg' }
          tasks := sys.tasks.set tid ph }
    | _ => sys
  | .verifyDone tid now ok =>
    match sys.tasks[tid]? with
    | some (.atVerify (mint :: rest)) =>
      if ok then
        { sys with tasks := sys.tasks.set tid (.atBuy (mint :: rest)) }
      else
        let (cfg', ph) := enterCand sys.shared.cfg now rest
        { sys with
          shared := { sys.shared with cfg := cfg' }
          tasks := sys.tasks.set tid ph }
    | _ => sys
  | .buyDone tid now res =>
    match sys.tasks[tid]? with
    | some (.atBuy (mint :: rest)) =>
      match res with
      | some (outRaw, spentLamports, _sh) =>
        { shared :=
            { cfg := { sys.shared.cfg with lastBuyAt := now }
              store := insertPos sys.shared.store mint
                (mkPosition mint spentLamports outRaw now "SCALP-THIN-AUTO") }
          tasks := sys.tasks.set tid .finished
          log := sys.log ++ [(now, mint)] }
      | none =>
        let (cfg', ph) := enterCand sys.shared.cfg now rest
        { sys with
          shared := { sys.shared with cfg := cfg' }
          tasks := sys.tasks.set tid ph }
    | _ => sys

/-- Run a whole schedule. -/
def apRun (sys : ApSys) (sched : List SchedEv) : ApSys :=
  sched.foldl apStep sys

/-- A second Dexscreener pair passing the default autopilot gates. -/
def pairHot2 : Pair :=
  { chainOk := true
    baseMint := some "HOT2"
    liqUsd := 9000
    vol5m := 2000
    buys5m := 30
    change5m := 6 }

/-- Initial system: default enabled config (`lastBuyAt = 0`, cooldown 30
min), empty store, no tasks. -/
def sys0 : ApSys := { shared := ⟨apCfg0, []⟩, tasks := [], log := [] }

/-- A schedule in which a second timer tick fires 60 s into a still-running
pass: both invocations pass the cooldown gate against `lastBuyAt = 0`,
select different candidates from their own fetches, and both buys succeed
500 ms apart. -/
def sched0 : List SchedEv :=
  [ .spawn 3600000,
    .fetchDone 0 3600500 (some [pairHot]),
    .spawn 3660000,
    .fetchDone 1 3660500 (some [pairHot2]),
    .verifyDone 0 3661000 true,
    .verifyDone 1 3661050 true,
    .buyDone 0 3661500 (some (5000, 20000000, 1)),
    .buyDone 1 3662000 (some (4000, 20000000, 1)) ]

/-! ## Theorems -/

/-- Helper: a false `impGT` bounds any present impact by the cap. -/
theorem impGT_false {imp : Option ℚ} {c : ℚ} (h : impGT imp c = false) :
    ∀ q, imp = some q → q ≤ c := by
  intro q hq
  subst hq
  simpa [impGT] using h

/-- Helper: a true `impLE` exposes both impacts and their comparison. -/
theorem impLE_true {a b : Option ℚ} (h : impLE a b = true) :
    ∃ x y, a = some x ∧ b = some y ∧ x ≤ y := by
  cases a with
  | none => simp [impLE] at h
  | some x =>
    cases b with
    | none => simp [impLE] at h
    | some y => exact ⟨x, y, rfl, rfl, by simpa [impLE] using h⟩

/-- Helper: the floored lamports of a non-negative SOL amount are at most
the exact value. -/
theorem lamportsOf_le {sol : ℚ} (h : 0 ≤ sol) :
    ((lamportsOf sol : ℕ) : ℚ) ≤ sol * 1000000000 := by
  unfold lamportsOf
  have hmax : ((⌊sol * 1000000000⌋.toNat : ℤ) : ℚ) =
      ((max ⌊sol * 1000000000⌋ 0 : ℤ) : ℚ) := by
    rw [Int.toNat_eq_max]
  have h1 : ((⌊sol * 1000000000⌋ : ℤ) : ℚ) ≤ sol * 1000000000 := Int.floor_le _
  have h2 : (0 : ℚ) ≤ sol * 1000000000 := by positivity
  rw [show (((⌊sol * 1000000000⌋.toNat : ℕ) : ℚ)) =
      ((⌊sol * 1000000000⌋.toNat : ℤ) : ℚ) by push_cast; ring, hmax]
  rcases max_cases ⌊sol * 1000000000⌋ 0 with ⟨he, _⟩ | ⟨he, _⟩ <;> rw [he]
  · exact h1
  · exact_mod_cast h2

/-- Claim C3: the monitor evaluates stop-loss before take-profit — whenever
the computed pnl is at or below the negated stop-loss threshold for a
position with nonzero held balance and positive entry cost, the monitor
sells the entire held balance, notifies the stored chat, and removes the
position from the store, regardless of the partial-exit flag. -/
theorem monitor_c3_stopLoss (p : Position) (bal est : ℕ) (now c : ℤ)
    (hbal : 0 < bal) (hentry : 0 < p.entrySolSpent)
    (hsl : pnlPctOf p.entrySolSpent (estSolOf est) ≤ -p.slPct) :
    monitorPosition p bal est now (some c) =
      { pos := none, soldRaw := some bal, notified := true } := by
  have h0 : ¬ (bal = 0) := Nat.pos_iff_ne_zero.mp hbal
  have h1 : ¬ (p.entrySolSpent ≤ 0) := not_le.mpr hentry
  have h2 : ¬ (¬ p.tpPct ≤ pnlPctOf p.entrySolSpent (estSolOf est) ∧
      ¬ pnlPctOf p.entrySolSpent (estSolOf est) ≤ -p.slPct) :=
    fun h => h.2 hsl
  simp [monitorPosition, h0, h1, h2, hsl]

/-- Witness for C3 at the spec's own example: entry 1 SOL, stop-loss 10%,
re-priced value 0.89 SOL (pnl = −11%), balance 101 raw. -/
theorem monitor_c3_stopLoss_witness :
    monitorPosition posScalp 101 890000000 5 (some 1) =
      { pos := none, soldRaw := some 101, notified := true } :=
  monitor_c3_stopLoss posScalp 101 890000000 5 1 (by norm_num)
    (by norm_num [posScalp])
    (by norm_num [posScalp, pnlPctOf, estSolOf, SCALP_SL_PCT])

/-- Claim C2 counterexample: with a held balance of 1 raw unit, pnl 25% ≥
take-profit 20% and `tookPartialTP = false`, the monitor performs no sell,
leaves `slPct` at 10 and `tookPartialTP` at `false` — contradicting the
claim that a take-profit observation with the flag down always sells half
and sets `stopLossPct = 0`, `partialExitTaken = true`. -/
theorem monitor_c2_counterexample :
    (monitorPosition posScalp 1 1250000000 5 (some 1)).soldRaw = none ∧
    (monitorPosition posScalp 1 1250000000 5 (some 1)).pos.map Position.slPct
      = some 10 ∧
    (monitorPosition posScalp 1 1250000000 5 (some 1)).pos.map
      Position.tookPartialTP = some false := by
  have hpnl : pnlPctOf 1 (estSolOf 1250000000) = 25 := by
    norm_num [pnlPctOf, estSolOf]
  norm_num [monitorPosition, posScalp, SCALP_TP_PCT, SCALP_SL_PCT, hpnl]

/-- Claim C2 (amended): when the monitor observes pnl ≥ take-profit on a
position with positive entry cost, sane thresholds (positive take-profit,
non-negative stop-loss), and a held balance of at least 2 raw units: with
`tookPartialTP = false` it sells the floored half of the held balance, sets
`slPct := 0`, sets `tookPartialTP := true` and keeps the position; with
`tookPartialTP = true` it sells the full held balance and removes the
position. -/
theorem monitor_c2_partialTP (p : Position) (bal est : ℕ) (now c : ℤ)
    (hbal : 0 < bal) (hentry : 0 < p.entrySolSpent)
    (htp : p.tpPct ≤ pnlPctOf p.entrySolSpent (estSolOf est))
    (htppos : 0 < p.tpPct) (hslnn : 0 ≤ p.slPct) :
    (p.tookPartialTP = false → 2 ≤ bal →
      monitorPosition p bal est now (some c) =
        { pos := some { p with lastCheck := some now, slPct := 0, tookPartialTP := true },
          soldRaw := some (bal / 2), notified := true }) ∧
    (p.tookPartialTP = true →
      monitorPosition p bal est now (some c) =
        { pos := none, soldRaw := some bal, notified := true }) := by
  have h0 : ¬ (bal = 0) := Nat.pos_iff_ne_zero.mp hbal
  have h1 : ¬ (p.entrySolSpent ≤ 0) := not_le.mpr hentry
  have hpnl : 0 < pnlPctOf p.entrySolSpent (estSolOf est) :=
    lt_of_lt_of_le htppos htp
  have hnosl : ¬ pnlPctOf p.entrySolSpent (estSolOf est) ≤ -p.slPct := by
    intro h
    have : pnlPctOf p.entrySolSpent (estSolOf est) ≤ 0 :=
      h.trans (neg_nonpos.mpr hslnn)
    exact absurd hpnl (not_lt.mpr this)
  have h2 : ¬ (¬ p.tpPct ≤ pnlPctOf p.entrySolSpent (estSolOf est) ∧
      ¬ pnlPctOf p.entrySolSpent (estSolOf est) ≤ -p.slPct) :=
    fun h => h.1 htp
  constructor
  · intro hpart hbal2
    have hhalf : 0 < bal / 2 := by omega
    simp [monitorPosition, h0, h1, h2, hnosl, hpart, hhalf, htp]
  · intro hpart
    simp [monitorPosition, h0, h1, h2, hnosl, hpart, htp]

/-- Witness for C2 (amended): entry 1 SOL, TP 20%, re-priced value 1.25 SOL
(pnl 25%), balance 101 raw: the first hit sells 50 raw and flips the flags;
the same position with the flag already set sells all 101 raw and closes. -/
theorem monitor_c2_partialTP_witness :
    (monitorPosition posScalp 101 1250000000 5 (some 1) =
      { pos := some { posScalp with lastCheck := some 5, slPct := 0, tookPartialTP := true },
        soldRaw := some 50, notified := true }) ∧
    (monitorPosition { posScalp with tookPartialTP := true } 101 1250000000 5
        (some 1) =
      { pos := none, soldRaw := some 101, notified := true }) := by
  constructor
  · exact (monitor_c2_partialTP posScalp 101 1250000000 5 1 (by norm_num)
      (by norm_num [posScalp])
      (by norm_num [posScalp, pnlPctOf, estSolOf, SCALP_TP_PCT])
      (by norm_num [posScalp, SCALP_TP_PCT])
      (by norm_num [posScalp, SCALP_SL_PCT])).1 rfl (by norm_num)
  · exact (monitor_c2_partialTP { posScalp with tookPartialTP := true } 101
      1250000000 5 1 (by norm_num) (by norm_num [posScalp])
      (by norm_num [posScalp, pnlPctOf, estSolOf, SCALP_TP_PCT])
      (by norm_num [posScalp, SCALP_TP_PCT])
      (by norm_num [posScalp, SCALP_SL_PCT])).2 rfl

/-- Claim C9: on a take-profit hit with `tookPartialTP = false` and a held
balance of exactly 1 (half rounds down to zero), the monitor performs no
sell, leaves `slPct` and `tookPartialTP` unchanged (only `lastCheck` is
refreshed) and keeps the position; and in general the partial-exit flag can
only flip when the floored half-balance is nonzero (balance ≥ 2). -/
theorem monitor_c9_tinyBalance (p : Position) (est : ℕ) (now c : ℤ)
    (hentry : 0 < p.entrySolSpent)
    (htp : p.tpPct ≤ pnlPctOf p.entrySolSpent (estSolOf est))
    (hnosl : ¬ pnlPctOf p.entrySolSpent (estSolOf est) ≤ -p.slPct)
    (hpart : p.tookPartialTP = false) :
    (monitorPosition p 1 est now (some c) =
      { pos := some { p with lastCheck := some now }
        soldRaw := none, notified := false }) ∧
    (∀ bal est' now' chat',
      ((monitorPosition p bal est' now' chat').pos.map Position.tookPartialTP)
          = some true → 2 ≤ bal) := by
  have h1 : ¬ (p.entrySolSpent ≤ 0) := not_le.mpr hentry
  have h2 : ¬ (¬ p.tpPct ≤ pnlPctOf p.entrySolSpent (estSolOf est) ∧
      ¬ pnlPctOf p.entrySolSpent (estSolOf est) ≤ -p.slPct) :=
    fun h => h.1 htp
  constructor
  · simp [monitorPosition, h1, h2, hnosl, hpart]
  · intro bal est' now' chat' h
    by_contra hlt
    have hhalf : ¬ (0 < bal / 2) := by omega
    simp only [monitorPosition] at h
    split_ifs at h <;> simp_all

/-- Witness for C9: entry 1 SOL, TP 20%, re-priced value 1.25 SOL, balance
exactly 1 raw unit: nothing is sold and only `lastCheck` changes. -/
theorem monitor_c9_tinyBalance_witness :
    monitorPosition posScalp 1 1250000000 5 (some 1) =
      { pos := some { posScalp with lastCheck := some 5 },
        soldRaw := none, notified := false } :=
  (monitor_c9_tinyBalance posScalp 1250000000 5 1
    (by norm_num [posScalp])
    (by norm_num [posScalp, pnlPctOf, estSolOf, SCALP_TP_PCT])
    (by norm_num [posScalp, pnlPctOf, estSolOf, SCALP_SL_PCT])
    rfl).1

/-- Helper: for a positive raw amount strictly below the exit-shard count
the very first even split of `sellTokensForSol` is zero, which breaks the
loop before any quote is requested. -/
theorem sellTokensForSol_small (cfg : ThinCfg) (oracle : Oracle)
    (amountRaw : ℤ) (slippageBps : ℕ)
    (h0 : 0 < amountRaw) (hk : amountRaw < (cfg.exitShards : ℤ)) :
    sellTokensForSol cfg oracle amountRaw slippageBps =
      .okRes { remaining := amountRaw, soldLamports := 0, callIdx := 0,
               slices := [] } := by
  have hne : ¬ (amountRaw ≤ 0) := not_le.mpr h0
  have hk2 : 2 ≤ cfg.exitShards := by omega
  obtain ⟨m, hm⟩ : ∃ m, cfg.exitShards = (m + 1) + 1 :=
    ⟨cfg.exitShards - 2, by omega⟩
  have hdiv : Int.tdiv amountRaw ((m : ℤ) + 1 + 1) = 0 := by
    apply Int.tdiv_eq_zero_of_lt (le_of_lt h0)
    rw [hm] at hk
    push_cast at hk
    omega
  simp only [sellTokensForSol, hne, if_false, hm, sellLoop]
  norm_num [hdiv]

/-- Claim C10: for a positive raw amount strictly below the configured
exit-shard count, `sellTokensForSol` raises no error, requests no quote and
executes no shard (the very first even split is zero, which breaks the
loop), and returns zero received lamports. -/
theorem sell_c10_tinyBalance (cfg : ThinCfg) (oracle : Oracle)
    (amountRaw : ℤ) (slippageBps : ℕ)
    (h0 : 0 < amountRaw) (hk : amountRaw < (cfg.exitShards : ℤ)) :
    sellTokensForSol cfg oracle amountRaw slippageBps =
      .okRes { remaining := amountRaw, soldLamports := 0, callIdx := 0,
               slices := [] } :=
  sellTokensForSol_small cfg oracle amountRaw slippageBps h0 hk

/-- Witness for C10 at the default config: selling 1 raw unit with 3 exit
shards executes nothing and returns zero. -/
theorem sell_c10_tinyBalance_witness :
    sellTokensForSol defaultThin (oracleConst routeFlat) 1 200 =
      .okRes { remaining := 1, soldLamports := 0, callIdx := 0,
               slices := [] } :=
  sell_c10_tinyBalance defaultThin (oracleConst routeFlat) 1 200
    (by norm_num) (by norm_num [defaultThin])

/-- Claim C6 counterexample: at the default exit-shard count 3, a requested
raw amount of 1 (> 0) yields zero executed shards whose input sum is 0, not
the requested 1 — and 0 shards is also not the configured count — against
the claim that the per-shard inputs always sum to the requested amount. -/
theorem sell_c6_counterexample :
    sellTokensForSol defaultThin (oracleConst routeFlat) 1 200 =
      .okRes { remaining := 1, soldLamports := 0, callIdx := 0,
               slices := [] } ∧
    (sellTokensForSol defaultThin (oracleConst routeFlat) 1 200).slicesOf.sum
      ≠ 1 ∧
    (sellTokensForSol defaultThin (oracleConst routeFlat) 1 200).slicesOf.length
      ≠ defaultThin.exitShards := by
  have h := sellTokensForSol_small defaultThin (oracleConst routeFlat) 1 200
    (by norm_num) (by norm_num [defaultThin])
  refine ⟨h, ?_, ?_⟩ <;> rw [h] <;> simp [SellRes.slicesOf, defaultThin]

/-- Helper: with an honest sell oracle and a remaining balance at least the
number of remaining shard slots, the sell loop runs all slots, every slice
is positive, the slices sum to the starting balance and nothing remains. -/
theorem sellLoop_exact (oracle : Oracle) (slip : ℕ) (hor : SellHonest oracle) :
    ∀ (m : ℕ) (st : SellSt), 1 ≤ m → (m : ℤ) ≤ st.remaining →
      ∃ st', sellLoop oracle slip m st = .okRes st' ∧
        ∃ l, st'.slices = st.slices ++ l ∧ l.length = m ∧
          l.sum = st.remaining ∧ st'.remaining = 0 ∧ ∀ s ∈ l, 0 < s := by
  intro m
  induction m with
  | zero => intro st h1 _; omega
  | succ m ih =>
    intro st _ hrem
    have hrpos : 0 < st.remaining := by
      push_cast at hrem
      omega
    by_cases hm : m = 0
    · subst hm
      obtain ⟨r, hr, hin⟩ := hor st.callIdx st.remaining.toNat slip
      have heff : ((effectiveIn r st.remaining.toNat : ℕ) : ℤ) = st.remaining := by
        rcases hin with h | h <;>
          simp [effectiveIn, h, Int.toNat_of_nonneg hrpos.le]
      have hslice : ¬ (st.remaining ≤ 0) := not_le.mpr hrpos
      refine ⟨{ remaining := st.remaining - (effectiveIn r st.remaining.toNat : ℕ)
                soldLamports := st.soldLamports + r.outAmount
                callIdx := st.callIdx + 1
                slices := st.slices ++ [st.remaining] },
              ?_, [st.remaining], rfl, rfl, by simp, ?_, ?_⟩
      · simp [sellLoop, hslice, hr]
      · simp only
        rw [heff]
        ring
      · intro s hs
        simp only [List.mem_singleton] at hs
        simpa [hs] using hrpos
    · have hm1 : 1 ≤ m := Nat.one_le_iff_ne_zero.mpr hm
      have hden : (0 : ℤ) < (m : ℤ) + 1 := by positivity
      have hremc : ((m : ℤ) + 1) ≤ st.remaining := by push_cast at hrem; linarith
      have hq : Int.tdiv st.remaining ((m : ℤ) + 1) =
          st.remaining / ((m : ℤ) + 1) :=
        Int.tdiv_eq_ediv hrpos.le hden.le
      have hq1 : 1 ≤ st.remaining / ((m : ℤ) + 1) := by
        rw [Int.le_ediv_iff_mul_le hden]
        linarith
      have hqle : st.remaining / ((m : ℤ) + 1) * ((m : ℤ) + 1) ≤ st.remaining :=
        Int.ediv_mul_le _ hden.ne'
      set q := st.remaining / ((m : ℤ) + 1) with hqdef
      have hrem' : (m : ℤ) ≤ st.remaining - q := by nlinarith
      obtain ⟨r, hr, hin⟩ := hor st.callIdx q.toNat slip
      have heff : ((effectiveIn r q.toNat : ℕ) : ℤ) = q := by
        rcases hin with h | h <;>
          simp [effectiveIn, h, Int.toNat_of_nonneg (by linarith : (0:ℤ) ≤ q)]
      obtain ⟨st', hrun, l, hsl, hlen, hsum, hrem0, hpos⟩ :=
        ih { remaining := st.remaining - (effectiveIn r q.toNat : ℕ)
             soldLamports := st.soldLamports + r.outAmount
             callIdx := st.callIdx + 1
             slices := st.slices ++ [q] } hm1 (by rw [heff]; exact hrem')
      have hqpos : ¬ (q ≤ 0) := not_le.mpr (by linarith)
      refine ⟨st', ?_, q :: l, ?_, ?_, ?_, hrem0, ?_⟩
      · simp only [sellLoop, hm, hq, hqpos, hr, if_false, ite_false]
        exact hrun
      · rw [hsl]
        simp [hq]
      · simpa using hlen
      · rw [List.sum_cons, hsum]
        simp only
        rw [heff]
        ring
      · intro s hs
        rcases List.mem_cons.mp hs with h | h
        · rw [h]; linarith
        · exact hpos s h

/-- Claim C6 (amended): for every raw amount at least the configured
exit-shard count and an honest oracle, `sellTokensForSol` executes exactly
the configured count of shards, each slice positive (the even split of the
remaining balance over the remaining slots, the last slot taking the full
remainder), and the per-shard inputs sum to the requested raw amount.  (For
0 < rawAmount < count the loop executes nothing — see the counterexample.) -/
theorem sell_c6_split (cfg : ThinCfg) (oracle : Oracle) (amountRaw : ℤ)
    (slippageBps : ℕ) (hor : SellHonest oracle) (hk : 1 ≤ cfg.exitShards)
    (hbig : (cfg.exitShards : ℤ) ≤ amountRaw) :
    ∃ st, sellTokensForSol cfg oracle amountRaw slippageBps = .okRes st ∧
      st.slices.length = cfg.exitShards ∧ st.slices.sum = amountRaw ∧
      st.remaining = 0 ∧ ∀ s ∈ st.slices, 0 < s := by
  have h0 : (0 : ℤ) < amountRaw := by
    have : (1 : ℤ) ≤ (cfg.exitShards : ℤ) := by exact_mod_cast hk
    linarith
  have hne : ¬ (amountRaw ≤ 0) := not_le.mpr h0
  obtain ⟨st', hrun, l, hsl, hlen, hsum, hrem0, hpos⟩ :=
    sellLoop_exact oracle (curSlipOf cfg slippageBps) hor cfg.exitShards
      { remaining := amountRaw, soldLamports := 0, callIdx := 0, slices := [] }
      hk hbig
  refine ⟨st', ?_, ?_, ?_, hrem0, ?_⟩
  · simpa [sellTokensForSol, hne] using hrun
  · rw [hsl]; simpa using hlen
  · rw [hsl]; simpa using hsum
  · intro s hs
    rw [hsl] at hs
    exact hpos s (by simpa using hs)

/-- Witness for C6 (amended): selling 10 raw units over 3 exit shards with a
flat-market oracle executes 3 shards whose inputs sum to 10. -/
theorem sell_c6_split_witness :
    ∃ st, sellTokensForSol defaultThin (oracleConst routeFlat) 10 200 =
        .okRes st ∧
      st.slices.length = defaultThin.exitShards ∧ st.slices.sum = 10 ∧
      st.remaining = 0 ∧ ∀ s ∈ st.slices, 0 < s :=
  sell_c6_split defaultThin (oracleConst routeFlat) 10 200
    (fun _ _ _ => ⟨routeFlat, rfl, Or.inl rfl⟩)
    (by norm_num [defaultThin]) (by norm_num [defaultThin])

/-- Helper: one `buyBySol` loop iteration preserves the invariant that every
recorded executed shard's present impact is at most the hard cap. -/
theorem buyStep_capped (cfg : ThinCfg) (oracle : Oracle) (amountSol : ℚ)
    (slip : ℕ) (st : BuySt)
    (hst : ∀ e ∈ st.executed, ∀ q, (e.2).priceImpactPct = some q →
      q ≤ cfg.hardImpact) :
    ∀ e ∈ (buyStep cfg oracle amountSol slip st).stateOf.executed, ∀ q,
      (e.2).priceImpactPct = some q → q ≤ cfg.hardImpact := by
  intro e he q hq
  simp only [buyStep] at he
  cases hor : oracle st.callIdx
      (lamportsOf (proposedSolOf cfg amountSol st.remainingSol)) slip with
  | err =>
    rw [hor] at he
    exact hst e (by simpa [StepRes.stateOf] using he) q hq
  | ok route =>
    rw [hor] at he
    dsimp only at he
    by_cases hhard : impGT route.priceImpactPct cfg.hardImpact = true
    · rw [if_pos hhard] at he
      split at he <;> exact hst e (by simpa [StepRes.stateOf] using he) q hq
    · have hhard' : impGT route.priceImpactPct cfg.hardImpact = false :=
        Bool.not_eq_true _ ▸ Bool.eq_false_iff.mpr (fun h => hhard h)
      rw [if_neg hhard] at he
      by_cases hsoft : (impGT route.priceImpactPct cfg.targetImpact = true ∧
          cfg.minShardSol < proposedSolOf cfg amountSol st.remainingSol)
      · rw [if_pos hsoft] at he
        cases hor2 : oracle (st.callIdx + 1)
            (lamportsOf (max (proposedSolOf cfg amountSol st.remainingSol / 2)
              cfg.minShardSol)) slip with
        | err =>
          rw [hor2] at he
          exact hst e (by simpa [StepRes.stateOf] using he) q hq
        | ok route2 =>
          rw [hor2] at he
          dsimp only at he
          by_cases hle : impLE route2.priceImpactPct route.priceImpactPct = true
          · rw [if_pos hle] at he
            simp only [StepRes.stateOf, execShard, List.mem_append,
              List.mem_singleton] at he
            rcases he with h | h
            · exact hst e h q hq
            · subst h
              obtain ⟨x, y, hx, hy, hxy⟩ := impLE_true hle
              simp only [hx] at hq
              cases hq
              exact hxy.trans (impGT_false hhard' y hy)
          · rw [if_neg hle] at he
            simp only [StepRes.stateOf, execShard, List.mem_append,
              List.mem_singleton] at he
            rcases he with h | h
            · exact hst e h q hq
            · subst h
              exact impGT_false hhard' q hq
      · rw [if_neg hsoft] at he
        simp only [StepRes.stateOf, execShard, List.mem_append,
          List.mem_singleton] at he
        rcases he with h | h
        · exact hst e h q hq
        · subst h
          exact impGT_false hhard' q hq

/-- Helper: the executed-shard impact bound is an invariant of the whole
`buyBySol` loop, whatever the outcome. -/
theorem buyLoop_capped (cfg : ThinCfg) (oracle : Oracle) (amountSol : ℚ)
    (slip : ℕ) :
    ∀ (fuel : ℕ) (st : BuySt),
      (∀ e ∈ st.executed, ∀ q, (e.2).priceImpactPct = some q →
        q ≤ cfg.hardImpact) →
      ∀ e ∈ (buyLoop cfg oracle amountSol slip fuel st).state.executed, ∀ q,
        (e.2).priceImpactPct = some q → q ≤ cfg.hardImpact := by
  intro fuel
  induction fuel with
  | zero => intro st hst; simpa [buyLoop, BuyRes.state] using hst
  | succ fuel ih =>
    intro st hst
    by_cases hcond : 0 < st.remainingSol ∧ st.shards < cfg.maxShards
    · have hstep := buyStep_capped cfg oracle amountSol slip st hst
      cases hs : buyStep cfg oracle amountSol slip st with
      | cont st' =>
        rw [hs] at hstep
        simpa [buyLoop, if_pos hcond, hs, StepRes.stateOf] using ih st' hstep
      | fail e st' =>
        rw [hs] at hstep
        simpa [buyLoop, if_pos hcond, hs, BuyRes.state, StepRes.stateOf]
          using hstep
    · by_cases hz : st.receivedRaw = 0 <;>
        simpa [buyLoop, if_neg hcond, hz, BuyRes.state] using hst

/-- Claim C5: every shard `buyBySol` actually executes — whether the
originally proposed route or the half-size probe route — has a reported
price impact (when one is present at all) that does not exceed the hard
impact cap. -/
theorem buy_c5_impactCap (cfg : ThinCfg) (oracle : Oracle) (amountSol : ℚ)
    (slippageBps fuel : ℕ) :
    ∀ e ∈ (buyBySol cfg oracle amountSol slippageBps fuel).state.executed,
      ∀ q, (e.2).priceImpactPct = some q → q ≤ cfg.hardImpact := by
  unfold buyBySol
  exact buyLoop_capped cfg oracle amountSol (curSlipOf cfg slippageBps) fuel
    (initBuySt amountSol) (by simp [initBuySt])

/-- Witness for C5: a one-shard run at 1% impact executes the shard
`(5000000 lamports, routeFlat)` and the claim bounds its impact by the 5%
hard cap. -/
theorem buy_c5_impactCap_witness : (1 : ℚ) ≤ cfgOne.hardImpact := by
  have hrun : buyBySol cfgOne (oracleConst routeFlat) (1/200) 0 2 =
      .okRes { remainingSol := 0, spentLamports := 5000000,
               receivedRaw := 1000, shards := 1, callIdx := 1,
               executed := [(5000000, routeFlat)] } := by
    norm_num [buyBySol, buyLoop, buyStep, initBuySt, proposedSolOf,
      perShardSol, toFixed6, lamportsOf, oracleConst, routeFlat, impGT,
      impLE, execShard, curSlipOf, cfgOne, defaultThin, effectiveIn]
    all_goals decide
  exact buy_c5_impactCap cfgOne (oracleConst routeFlat) (1/200) 0 2
    (5000000, routeFlat) (by rw [hrun]; simp [BuyRes.state]) 1 rfl

/-- Helper: one `buyBySol` iteration whose first quote reports an impact
above the hard cap either throws at minimum shard size, or subtracts half
the proposed shard size from the remaining target and touches nothing
else. -/
theorem buyStep_hardImpact (cfg : ThinCfg) (oracle : Oracle) (amountSol : ℚ)
    (slip : ℕ) (st : BuySt) (r : Route) (q : ℚ)
    (hq : oracle st.callIdx
      (lamportsOf (proposedSolOf cfg amountSol st.remainingSol)) slip = .ok r)
    (himp : r.priceImpactPct = some q) (hhigh : cfg.hardImpact < q) :
    (proposedSolOf cfg amountSol st.remainingSol ≤
        cfg.minShardSol + 1/1000000000 →
      buyStep cfg oracle amountSol slip st =
        .fail (.hardImpact q) { st with callIdx := st.callIdx + 1 }) ∧
    (cfg.minShardSol + 1/1000000000 <
        proposedSolOf cfg amountSol st.remainingSol →
      buyStep cfg oracle amountSol slip st =
        .cont { st with
          callIdx := st.callIdx + 1
          remainingSol :=
            max (st.remainingSol -
              proposedSolOf cfg amountSol st.remainingSol / 2) 0 }) := by
  have himpGT : impGT r.priceImpactPct cfg.hardImpact = true := by
    simp [impGT, himp, hhigh]
  constructor
  · intro h
    simp only [buyStep, hq]
    rw [if_pos himpGT, if_pos h]
    simp [himp]
  · intro h
    simp only [buyStep, hq]
    rw [if_pos himpGT, if_neg (not_le.mpr h)]

/-- Claim C4 counterexample: default tuning, target 0.05 SOL, so the
proposed shard is 0.01 SOL and the remaining amount 0.05 SOL; a 6% impact
quote (above the 5% hard cap, shard not at minimum size) makes the loop
continue with remaining 0.05 − 0.01/2 = 0.045 SOL, which is **not** the
halved remaining amount 0.025 SOL — against the claim that "the remaining
amount is halved to retry".  The attempt itself is discarded (spent,
received, shard count and executed list unchanged). -/
theorem buy_c4_counterexample :
    buyStep defaultThin (oracleConst routeHighImpact) (1/20) 200
        (initBuySt (1/20)) =
      .cont { initBuySt (1/20) with remainingSol := 9/200, callIdx := 1 } ∧
    (9/200 : ℚ) ≠ (1/20) / 2 := by
  constructor
  · norm_num [buyStep, initBuySt, proposedSolOf, perShardSol, toFixed6,
      lamportsOf, oracleConst, routeHighImpact, impGT, defaultThin]
  · norm_num

/-- Claim C4 (amended): when the quote for the proposed shard reports an
impact above the hard cap, `buyBySol` aborts the whole operation with a
hard-impact error if the proposed shard is already at minimum size (within
the 1e-9 tolerance); otherwise it subtracts half the *proposed shard size*
from the remaining amount and retries, discarding the attempt entirely —
spent, received, shard count and the executed-shard record are unchanged. -/
theorem buy_c4_hardImpact (cfg : ThinCfg) (oracle : Oracle) (amountSol : ℚ)
    (slip fuel : ℕ) (st : BuySt) (r : Route) (q : ℚ)
    (hcond : 0 < st.remainingSol ∧ st.shards < cfg.maxShards)
    (hq : oracle st.callIdx
      (lamportsOf (proposedSolOf cfg amountSol st.remainingSol)) slip = .ok r)
    (himp : r.priceImpactPct = some q) (hhigh : cfg.hardImpact < q) :
    (proposedSolOf cfg amountSol st.remainingSol ≤
        cfg.minShardSol + 1/1000000000 →
      buyLoop cfg oracle amountSol slip (fuel + 1) st =
        .errRes (.hardImpact q) { st with callIdx := st.callIdx + 1 }) ∧
    (cfg.minShardSol + 1/1000000000 <
        proposedSolOf cfg amountSol st.remainingSol →
      buyLoop cfg oracle amountSol slip (fuel + 1) st =
        buyLoop cfg oracle amountSol slip fuel
          { st with
            callIdx := st.callIdx + 1
            remainingSol :=
              max (st.remainingSol -
                proposedSolOf cfg amountSol st.remainingSol / 2) 0 }) := by
  obtain ⟨h1, h2⟩ :=
    buyStep_hardImpact cfg oracle amountSol slip st r q hq himp hhigh
  constructor
  · intro h
    simp only [buyLoop, if_pos hcond, h1 h]
  · intro h
    simp only [buyLoop, if_pos hcond, h2 h]

/-- Witness for C4 (amended) at the counterexample's input: target 0.05 SOL,
default tuning, 6% impact quote, shard above minimum size. -/
theorem buy_c4_hardImpact_witness :
    ((proposedSolOf defaultThin (1/20) (initBuySt (1/20)).remainingSol ≤
        defaultThin.minShardSol + 1/1000000000 →
      buyLoop defaultThin (oracleConst routeHighImpact) (1/20) 200 1
          (initBuySt (1/20)) =
        .errRes (.hardImpact 6)
          { initBuySt (1/20) with callIdx := (initBuySt (1/20)).callIdx + 1 }) ∧
    (defaultThin.minShardSol + 1/1000000000 <
        proposedSolOf defaultThin (1/20) (initBuySt (1/20)).remainingSol →
      buyLoop defaultThin (oracleConst routeHighImpact) (1/20) 200 1
          (initBuySt (1/20)) =
        buyLoop defaultThin (oracleConst routeHighImpact) (1/20) 200 0
          { initBuySt (1/20) with
            callIdx := (initBuySt (1/20)).callIdx + 1
            remainingSol :=
              max ((initBuySt (1/20)).remainingSol -
                proposedSolOf defaultThin (1/20)
                  (initBuySt (1/20)).remainingSol / 2) 0 })) :=
  buy_c4_hardImpact defaultThin (oracleConst routeHighImpact) (1/20) 200 0
    (initBuySt (1/20)) routeHighImpact 6
    (by norm_num [initBuySt, defaultThin]) rfl rfl
    (by norm_num [defaultThin])

/-- Helper: the effective input of an honest route is at most the requested
amount. -/
theorem effectiveIn_le {r : Route} {req : ℕ}
    (hin : ∀ n, r.inAmount = some n → n ≤ req) : effectiveIn r req ≤ req := by
  unfold effectiveIn
  cases h : r.inAmount with
  | some n => exact hin n h
  | none => exact le_rfl

/-- Helper: facts about the state after executing one honest shard of SOL
size `sol` requested as `lamportsOf sol`. -/
theorem execShard_facts (st : BuySt) (r : Route) (sol : ℚ)
    (hsolnn : 0 ≤ sol)
    (hin : ∀ n, r.inAmount = some n → n ≤ lamportsOf sol)
    (hout : 1 ≤ r.outAmount) :
    (execShard st (lamportsOf sol) r sol).remainingSol =
        st.remainingSol - sol ∧
    (execShard st (lamportsOf sol) r sol).shards = st.shards + 1 ∧
    st.receivedRaw + 1 ≤ (execShard st (lamportsOf sol) r sol).receivedRaw ∧
    ((execShard st (lamportsOf sol) r sol).spentLamports : ℚ) ≤
        (st.spentLamports : ℚ) + sol * 1000000000 := by
  refine ⟨rfl, rfl, ?_, ?_⟩
  · simp only [execShard]
    omega
  · simp only [execShard]
    push_cast
    have h1 : ((effectiveIn r (lamportsOf sol) : ℕ) : ℚ) ≤
        ((lamportsOf sol : ℕ) : ℚ) := by
      exact_mod_cast effectiveIn_le hin
    have h2 := lamportsOf_le hsolnn
    linarith

/-- Helper: one `buyBySol` iteration with a positive remaining target and an
honest oracle either throws the hard-impact error, or continues after a
half-proposed-size halving retry that leaves the accumulators untouched and
keeps the remaining target positive, or continues after executing exactly
one shard of SOL size between the minimum shard size and one shard's
slack. -/
theorem buyStep_cases (cfg : ThinCfg) (oracle : Oracle) (amountSol : ℚ)
    (slip : ℕ) (st : BuySt) (hmin : 0 < cfg.minShardSol)
    (hor : BuyHonest oracle) :
    (∃ q st', buyStep cfg oracle amountSol slip st =
        .fail (.hardImpact q) st') ∨
    (∃ st', buyStep cfg oracle amountSol slip st = .cont st' ∧
      ((st'.spentLamports = st.spentLamports ∧
        st'.receivedRaw = st.receivedRaw ∧
        st'.shards = st.shards ∧
        0 < st'.remainingSol ∧
        st'.remainingSol ≤ st.remainingSol - cfg.minShardSol / 2) ∨
       (∃ sol, cfg.minShardSol ≤ sol ∧ sol ≤ shardSlack cfg amountSol ∧
        st'.remainingSol = st.remainingSol - sol ∧
        st'.shards = st.shards + 1 ∧
        st.receivedRaw + 1 ≤ st'.receivedRaw ∧
        (st'.spentLamports : ℚ) ≤
          (st.spentLamports : ℚ) + sol * 1000000000))) := by
  obtain ⟨r, hr, hrin, hrout⟩ := hor st.callIdx
    (lamportsOf (proposedSolOf cfg amountSol st.remainingSol)) slip
  have hpropmin : cfg.minShardSol ≤ proposedSolOf cfg amountSol st.remainingSol :=
    le_max_right _ _
  have hpropslack :
      proposedSolOf cfg amountSol st.remainingSol ≤ shardSlack cfg amountSol :=
    max_le_max (min_le_right _ _) le_rfl
  have hslackmin : cfg.minShardSol ≤ shardSlack cfg amountSol := le_max_right _ _
  by_cases hhard : impGT r.priceImpactPct cfg.hardImpact = true
  · by_cases hsmall : proposedSolOf cfg amountSol st.remainingSol ≤
        cfg.minShardSol + 1/1000000000
    · left
      refine ⟨(r.priceImpactPct).getD 0, { st with callIdx := st.callIdx + 1 }, ?_⟩
      simp only [buyStep, hr]
      rw [if_pos hhard, if_pos hsmall]
    · right
      push_neg at hsmall
      have hlt : cfg.minShardSol < proposedSolOf cfg amountSol st.remainingSol := by
        have : cfg.minShardSol < cfg.minShardSol + 1/1000000000 := by linarith
        linarith
      have hple : proposedSolOf cfg amountSol st.remainingSol ≤ st.remainingSol := by
        by_cases hmm : min st.remainingSol (perShardSol cfg amountSol) ≤
            cfg.minShardSol
        · exfalso
          have : proposedSolOf cfg amountSol st.remainingSol = cfg.minShardSol :=
            max_eq_right hmm
          rw [this] at hlt
          exact lt_irrefl _ hlt
        · have heq : proposedSolOf cfg amountSol st.remainingSol =
              min st.remainingSol (perShardSol cfg amountSol) :=
            max_eq_left (le_of_lt (not_le.mp hmm))
          rw [heq]
          exact min_le_left _ _
      have h1 : 0 < st.remainingSol -
          proposedSolOf cfg amountSol st.remainingSol / 2 := by linarith
      refine ⟨{ st with
          callIdx := st.callIdx + 1
          remainingSol := max (st.remainingSol -
            proposedSolOf cfg amountSol st.remainingSol / 2) 0 }, ?_,
        Or.inl ⟨rfl, rfl, rfl, ?_, ?_⟩⟩
      · simp only [buyStep, hr]
        rw [if_pos hhard, if_neg (not_le.mpr hsmall)]
      · exact lt_max_iff.mpr (Or.inl h1)
      · simp only
        rw [max_eq_left h1.le]
        linarith
  · have hhard' : impGT r.priceImpactPct cfg.hardImpact = false :=
      Bool.eq_false_iff.mpr hhard
    by_cases hsoft : (impGT r.priceImpactPct cfg.targetImpact = true ∧
        cfg.minShardSol < proposedSolOf cfg amountSol st.remainingSol)
    · obtain ⟨r2, hr2, hr2in, hr2out⟩ := hor (st.callIdx + 1)
        (lamportsOf (max (proposedSolOf cfg amountSol st.remainingSol / 2)
          cfg.minShardSol)) slip
      by_cases hle : impLE r2.priceImpactPct r.priceImpactPct = true
      · right
        obtain ⟨hrm, hsh, hrc, hsp⟩ := execShard_facts
          { st with callIdx := st.callIdx + 1 + 1 } r2
          (max (proposedSolOf cfg amountSol st.remainingSol / 2)
            cfg.minShardSol) (le_trans hmin.le (le_max_right _ _)) hr2in hr2out
        refine ⟨_, ?_,
          Or.inr ⟨max (proposedSolOf cfg amountSol st.remainingSol / 2)
            cfg.minShardSol, le_max_right _ _, ?_, hrm, hsh, hrc, hsp⟩⟩
        · simp only [buyStep, hr]
          rw [if_neg hhard, if_pos hsoft]
          simp only [hr2]
          rw [if_pos hle]
        · refine max_le ?_ hslackmin
          calc proposedSolOf cfg amountSol st.remainingSol / 2
              ≤ proposedSolOf cfg amountSol st.remainingSol := by linarith
            _ ≤ shardSlack cfg amountSol := hpropslack
      · right
        obtain ⟨hrm, hsh, hrc, hsp⟩ := execShard_facts
          { st with callIdx := st.callIdx + 1 + 1 } r
          (proposedSolOf cfg amountSol st.remainingSol)
          (le_trans hmin.le hpropmin) hrin hrout
        refine ⟨_, ?_, Or.inr ⟨proposedSolOf cfg amountSol st.remainingSol,
          hpropmin, hpropslack, hrm, hsh, hrc, hsp⟩⟩
        simp only [buyStep, hr]
        rw [if_neg hhard, if_pos hsoft]
        simp only [hr2]
        rw [if_neg hle]
    · right
      obtain ⟨hrm, hsh, hrc, hsp⟩ := execShard_facts
        { st with callIdx := st.callIdx + 1 } r
        (proposedSolOf cfg amountSol st.remainingSol)
        (le_trans hmin.le hpropmin) hrin hrout
      refine ⟨_, ?_, Or.inr ⟨proposedSolOf cfg amountSol st.remainingSol,
        hpropmin, hpropslack, hrm, hsh, hrc, hsp⟩⟩
      simp only [buyStep, hr]
      rw [if_neg hhard, if_neg hsoft]

/-- Helper: main loop invariant run for `buyBySol` under an honest oracle —
given enough fuel the loop ends in a success with positive received raw and
spend bounded by the target plus one shard's slack, or in the hard-impact
error. -/
theorem buyLoop_run (cfg : ThinCfg) (oracle : Oracle) (amountSol : ℚ)
    (slip : ℕ) (hmin : 0 < cfg.minShardSol) (hmax : 1 ≤ cfg.maxShards)
    (hor : BuyHonest oracle) :
    ∀ (fuel : ℕ) (st : BuySt),
      (st.spentLamports : ℚ) ≤ (amountSol - st.remainingSol) * 1000000000 →
      st.shards ≤ st.receivedRaw →
      (st.shards = 0 → 0 < st.remainingSol) →
      -(shardSlack cfg amountSol) < st.remainingSol →
      2 * max st.remainingSol 0 + cfg.minShardSol ≤
        (fuel : ℚ) * cfg.minShardSol →
      (∃ st', buyLoop cfg oracle amountSol slip fuel st = .okRes st' ∧
          0 < st'.receivedRaw ∧
          (st'.spentLamports : ℚ) ≤
            (amountSol + shardSlack cfg amountSol) * 1000000000) ∨
      (∃ q st', buyLoop cfg oracle amountSol slip fuel st =
          .errRes (.hardImpact q) st') := by
  intro fuel
  induction fuel with
  | zero =>
    intro st _ _ _ _ hfuel
    exfalso
    have h0 : (0 : ℚ) ≤ max st.remainingSol 0 := le_max_right _ _
    push_cast at hfuel
    linarith
  | succ fuel ih =>
    intro st hI1 hI2 hI3 hI4 hfuel
    by_cases hcond : 0 < st.remainingSol ∧ st.shards < cfg.maxShards
    · rcases buyStep_cases cfg oracle amountSol slip st hmin hor with
        ⟨q, st', hstep⟩ | ⟨st', hstep, hcase⟩
      · right
        exact ⟨q, st', by simp only [buyLoop, if_pos hcond, hstep]⟩
      · have hloop : buyLoop cfg oracle amountSol slip (fuel + 1) st =
            buyLoop cfg oracle amountSol slip fuel st' := by
          simp only [buyLoop, if_pos hcond, hstep]
        rw [hloop]
        have hmaxrem : max st.remainingSol 0 = st.remainingSol :=
          max_eq_left hcond.1.le
        have hS : 0 < shardSlack cfg amountSol :=
          lt_of_lt_of_le hmin (le_max_right _ _)
        rcases hcase with ⟨hsp, hrc, hsh, hpos, hdec⟩ |
          ⟨sol, hsol1, hsol2, hrm, hsh, hrc, hsp⟩
        · apply ih st'
          · rw [hsp]
            have hmono : st'.remainingSol ≤ st.remainingSol := by linarith
            have := mul_le_mul_of_nonneg_right
              (sub_le_sub_left hmono amountSol)
              (by norm_num : (0 : ℚ) ≤ 1000000000)
            linarith
          · rw [hrc, hsh]
            exact hI2
          · exact fun _ => hpos
          · linarith
          · rw [max_eq_left hpos.le]
            rw [hmaxrem] at hfuel
            push_cast at hfuel ⊢
            linarith
        · apply ih st'
          · have hexp : (amountSol - (st.remainingSol - sol)) * 1000000000 =
                (amountSol - st.remainingSol) * 1000000000 +
                  sol * 1000000000 := by ring
            rw [hrm, hexp]
            linarith
          · rw [hsh]
            omega
          · intro h
            rw [hsh] at h
            exact absurd h (Nat.succ_ne_zero _)
          · rw [hrm]
            linarith [hcond.1]
          · rw [hmaxrem] at hfuel
            push_cast at hfuel ⊢
            rcases le_or_lt st'.remainingSol 0 with hneg | hposr
            · rw [max_eq_right hneg]
              have hf1 : (1 : ℚ) ≤ (fuel : ℚ) := by
                by_contra hc
                push_neg at hc
                have hf0 : fuel = 0 := by
                  have : (fuel : ℚ) < 1 := hc
                  exact_mod_cast Nat.lt_one_iff.mp (by exact_mod_cast this)
                rw [hf0] at hfuel
                push_cast at hfuel
                linarith [hcond.1]
              nlinarith
            · rw [max_eq_left hposr.le]
              have hmono : st'.remainingSol ≤ st.remainingSol - cfg.minShardSol := by
                rw [hrm]
                linarith
              linarith
    · by_cases hz : st.receivedRaw = 0
      · exfalso
        have hsh0 : st.shards = 0 := by omega
        have hrempos := hI3 hsh0
        rw [hsh0] at hcond
        exact hcond ⟨hrempos, by omega⟩
      · left
        refine ⟨st, ?_, Nat.pos_of_ne_zero hz, ?_⟩
        · simp only [buyLoop, if_neg hcond, hz, if_false]
        · have := mul_le_mul_of_nonneg_right
            (by linarith :
              amountSol - st.remainingSol ≤
                amountSol + shardSlack cfg amountSol)
            (by norm_num : (0 : ℚ) ≤ 1000000000)
          linarith

/-- Claim C1: for every positive target, at least one allowed shard, a
positive minimum shard size, an honest quote oracle (reported input at most
the requested amount, positive expected output) and enough loop fuel,
`buyBySol` either returns a success whose received raw amount is positive
and whose total spent lamports are at most the target plus one shard's
rounding slack, or throws the hard-impact error.  In particular it never
returns a success whose received amount is zero. -/
theorem buy_c1_spec (cfg : ThinCfg) (oracle : Oracle) (amountSol : ℚ)
    (slippageBps fuel : ℕ)
    (hmin : 0 < cfg.minShardSol) (hmax : 1 ≤ cfg.maxShards)
    (hT : 0 < amountSol) (hor : BuyHonest oracle)
    (hfuel : 2 * amountSol + cfg.minShardSol ≤
      (fuel : ℚ) * cfg.minShardSol) :
    (∃ st, buyBySol cfg oracle amountSol slippageBps fuel = .okRes st ∧
        0 < st.receivedRaw ∧
        (st.spentLamports : ℚ) ≤
          (amountSol + shardSlack cfg amountSol) * 1000000000) ∨
    (∃ q st, buyBySol cfg oracle amountSol slippageBps fuel =
        .errRes (.hardImpact q) st) := by
  unfold buyBySol
  apply buyLoop_run cfg oracle amountSol (curSlipOf cfg slippageBps) hmin hmax
    hor fuel (initBuySt amountSol)
  · simp [initBuySt]
  · simp [initBuySt]
  · intro _
    simpa [initBuySt] using hT
  · have hS : 0 < shardSlack cfg amountSol :=
      lt_of_lt_of_le hmin (le_max_right _ _)
    simp only [initBuySt]
    linarith
  · simp only [initBuySt]
    rw [max_eq_left hT.le]
    exact hfuel

/-- Witness for C1: the default tuning, a flat-market oracle (no reported
input, 1% impact, 1000 raw out per shard), target 0.05 SOL and fuel 30. -/
theorem buy_c1_spec_witness :
    (∃ st, buyBySol defaultThin (oracleConst routeFlat) (1/20) 0 30 =
        .okRes st ∧
        0 < st.receivedRaw ∧
        (st.spentLamports : ℚ) ≤
          (1/20 + shardSlack defaultThin (1/20)) * 1000000000) ∨
    (∃ q st, buyBySol defaultThin (oracleConst routeFlat) (1/20) 0 30 =
        .errRes (.hardImpact q) st) :=
  buy_c1_spec defaultThin (oracleConst routeFlat) (1/20) 0 30
    (by norm_num [defaultThin]) (by norm_num [defaultThin]) (by norm_num)
    (fun _ _ _ => ⟨routeFlat, rfl, by simp [routeFlat], by simp [routeFlat]⟩)
    (by norm_num [defaultThin])

/-- Helper: a mint produced by the picks loop was in the accumulator already
or came from the scored list and is not currently held. -/
theorem pickLoop_mem (store : PosStore) (room : ℕ) :
    ∀ (l : List Scored) (acc : List String) (m : String),
      m ∈ pickLoop store room l acc →
      m ∈ acc ∨ ((∃ s ∈ l, s.baseMint = m) ∧ lookupPos store m = none) := by
  intro l
  induction l with
  | nil =>
    intro acc m h
    left
    simpa [pickLoop] using h
  | cons s rest ih =>
    intro acc m h
    simp only [pickLoop] at h
    by_cases h1 : room ≤ acc.length
    · rw [if_pos h1] at h
      left
      exact h
    · rw [if_neg h1] at h
      by_cases h2 : (lookupPos store s.baseMint).isSome = true
      · rw [if_pos h2] at h
        rcases ih acc m h with ha | ⟨⟨t, ht, htm⟩, hl⟩
        · left; exact ha
        · right; exact ⟨⟨t, List.mem_cons_of_mem _ ht, htm⟩, hl⟩
      · rw [if_neg h2] at h
        rcases ih (acc ++ [s.baseMint]) m h with ha | ⟨⟨t, ht, htm⟩, hl⟩
        · rcases List.mem_append.mp ha with h3 | h3
          · left; exact h3
          · right
            have hm : s.baseMint = m := (List.mem_singleton.mp h3).symm
            refine ⟨⟨s, List.mem_cons_self _ _, hm⟩, ?_⟩
            rw [← hm]
            exact Option.not_isSome_iff_eq_none.mp h2
        · right; exact ⟨⟨t, List.mem_cons_of_mem _ ht, htm⟩, hl⟩

/-- Helper: every selected candidate is neither blacklisted nor already
held. -/
theorem selectCandidates_mem (store : PosStore) (cfg : ApCfg) (now : ℤ)
    (pairs : List Pair) (m : String)
    (h : m ∈ selectCandidates store cfg now pairs) :
    m ∉ cfg.blacklist ∧ lookupPos store m = none := by
  unfold selectCandidates at h
  by_cases hroom : cfg.maxOpen - store.length = 0
  · simp [hroom] at h
  · rw [if_neg hroom] at h
    rcases pickLoop_mem store (cfg.maxOpen - store.length) _ [] m h with
      ha | ⟨⟨s, hs, hsm⟩, hlook⟩
    · simp at ha
    · have hs' : s ∈ (pairs.filter (pairPasses cfg now)).map scorePair :=
        (List.mergeSort_perm _ _).mem_iff.mp hs
      obtain ⟨p, hp, hsp⟩ := List.mem_map.mp hs'
      obtain ⟨_, hpass⟩ := List.mem_filter.mp hp
      have hmint : p.baseMint.getD "" = m := by
        rw [← hsm, ← hsp]
        rfl
      have hban : cfg.blacklist.contains (p.baseMint.getD "") = false := by
        unfold pairPasses at hpass
        simp only [Bool.and_eq_true, Bool.not_eq_true'] at hpass
        exact hpass.1.1.1.1.1.2
      refine ⟨?_, hlook⟩
      rw [hmint] at hban
      simp_all

/-- Helper: the candidate loop never reports more than one entry; an entry
carries the pass timestamp, a candidate mint, and sets `lastBuyAt` to the
pass timestamp, while a pass without entries leaves `lastBuyAt` alone. -/
theorem attemptLoop_spec (inp : PassIn) :
    ∀ (cands : List String) (st : ApState),
      ((attemptLoop inp st cands).2 = [] ∧
        (attemptLoop inp st cands).1.cfg.lastBuyAt = st.cfg.lastBuyAt) ∨
      (∃ m ∈ cands, (attemptLoop inp st cands).2 = [(inp.now, m)] ∧
        (attemptLoop inp st cands).1.cfg.lastBuyAt = inp.now) := by
  intro cands
  induction cands with
  | nil => intro st; exact Or.inl ⟨rfl, rfl⟩
  | cons mint rest ih =>
    intro st
    simp only [attemptLoop]
    cases h : inp.buyRes mint with
    | none =>
      rcases ih { st with cfg :=
          { st.cfg with lastTried := setLastTried st.cfg.lastTried mint inp.now } } with
        ⟨h1, h2⟩ | ⟨m, hm, h1, h2⟩
      · exact Or.inl ⟨h1, h2⟩
      · exact Or.inr ⟨m, List.mem_cons_of_mem _ hm, h1, h2⟩
    | some v =>
      obtain ⟨outRaw, spent, sh⟩ := v
      exact Or.inr ⟨mint, List.mem_cons_self _ _, rfl, rfl⟩

/-- Helper: the candidate loop leaves `cooldownMs` and the blacklist
untouched. -/
theorem attemptLoop_cfg (inp : PassIn) :
    ∀ (cands : List String) (st : ApState),
      (attemptLoop inp st cands).1.cfg.cooldownMs = st.cfg.cooldownMs ∧
      (attemptLoop inp st cands).1.cfg.blacklist = st.cfg.blacklist := by
  intro cands
  induction cands with
  | nil => intro st; exact ⟨rfl, rfl⟩
  | cons mint rest ih =>
    intro st
    simp only [attemptLoop]
    cases h : inp.buyRes mint with
    | none => exact ih _
    | some v =>
      obtain ⟨outRaw, spent, sh⟩ := v
      exact ⟨rfl, rfl⟩

/-- Helper: one autopilot pass either logs nothing and keeps `lastBuyAt`, or
logs exactly one entry at the pass time: the global cooldown had elapsed,
the mint is neither blacklisted nor held at pass start, and `lastBuyAt`
becomes the pass time. -/
theorem autopilotLoop_spec (st : ApState) (inp : PassIn) :
    ((autopilotLoop st inp).2 = [] ∧
      (autopilotLoop st inp).1.cfg.lastBuyAt = st.cfg.lastBuyAt) ∨
    (∃ m, (autopilotLoop st inp).2 = [(inp.now, m)] ∧
      (autopilotLoop st inp).1.cfg.lastBuyAt = inp.now ∧
      st.cfg.cooldownMs ≤ inp.now - st.cfg.lastBuyAt ∧
      m ∉ st.cfg.blacklist ∧ lookupPos st.store m = none) := by
  unfold autopilotLoop
  by_cases hen : ¬st.cfg.enabled
  · rw [if_pos hen]
    exact Or.inl ⟨rfl, rfl⟩
  · rw [if_neg hen]
    by_cases hcool : inp.now - st.cfg.lastBuyAt < st.cfg.cooldownMs
    · rw [if_pos hcool]
      exact Or.inl ⟨rfl, rfl⟩
    · rw [if_neg hcool]
      cases hp : inp.pairs with
      | none => exact Or.inl ⟨rfl, rfl⟩
      | some pairs =>
        rcases attemptLoop_spec inp
            (selectCandidates st.store st.cfg inp.now pairs) st with
          ⟨h1, h2⟩ | ⟨m, hm, h1, h2⟩
        · exact Or.inl ⟨h1, h2⟩
        · obtain ⟨hban, hheld⟩ := selectCandidates_mem st.store st.cfg inp.now
            pairs m hm
          exact Or.inr ⟨m, h1, h2, not_lt.mp hcool, hban, hheld⟩

/-- Helper: one autopilot pass preserves `cooldownMs`. -/
theorem autopilotLoop_cooldown (st : ApState) (inp : PassIn) :
    (autopilotLoop st inp).1.cfg.cooldownMs = st.cfg.cooldownMs := by
  unfold autopilotLoop
  by_cases hen : ¬st.cfg.enabled
  · rw [if_pos hen]
  · rw [if_neg hen]
    by_cases hcool : inp.now - st.cfg.lastBuyAt < st.cfg.cooldownMs
    · rw [if_pos hcool]
    · rw [if_neg hcool]
      cases hp : inp.pairs with
      | none => rfl
      | some pairs => exact (attemptLoop_cfg inp _ st).1

/-- Helper: across any run, consecutive successful autonomous entries
(prefixed by the initial `lastBuyAt` stamp) are separated by at least the
cooldown. -/
theorem autopilotRun_chain (c : ℤ) :
    ∀ (inps : List PassIn) (st : ApState), st.cfg.cooldownMs = c →
      List.Chain' (fun a b => c ≤ b.1 - a.1)
        ((st.cfg.lastBuyAt, "") :: (autopilotRun st inps).2) := by
  intro inps
  induction inps with
  | nil =>
    intro st _
    simp [autopilotRun]
  | cons inp rest ih =>
    intro st hc
    simp only [autopilotRun]
    rcases autopilotLoop_spec st inp with ⟨h1, h2⟩ | ⟨m, h1, h2, hcool, _, _⟩
    · rw [h1, List.nil_append]
      have := ih (autopilotLoop st inp).1
        ((autopilotLoop_cooldown st inp).trans hc)
      rw [h2] at this
      exact this
    · rw [h1, List.singleton_append]
      have hch := ih (autopilotLoop st inp).1
        ((autopilotLoop_cooldown st inp).trans hc)
      rw [h2] at hch
      obtain ⟨hhead, htail⟩ := List.chain'_cons'.mp hch
      refine List.chain'_cons'.mpr ⟨?_, List.chain'_cons'.mpr ⟨?_, htail⟩⟩
      · intro y hy
        have hym : y = (inp.now, m) := by
          have := hy
          simp only [List.head?_cons, Option.mem_def, Option.some.injEq] at this
          exact this.symm
        subst hym
        exact hc ▸ hcool
      · intro y hy
        exact hhead y hy

/-- Claim C7 (amended): (a) one autopilot pass initiates at most one
successful autonomous entry, and every entry it initiates is for a mint
that is neither blacklisted nor already held at pass start; (b) **provided
invocations do not overlap** — each pass completes before the next timer
tick, the `autopilotRun` serialization — successive successful entries,
seeded by the persisted `lastBuyAt`, are separated by at least
`cooldownMs`, so no `cooldownMs` window contains two of them.  The proviso
is necessary: overlapping invocations read a stale `lastBuyAt` and can
complete two entries inside one window (see the C7 counterexample on the
`apRun` task machine). -/
theorem autopilot_c7 :
    (∀ (st : ApState) (inp : PassIn),
      (autopilotLoop st inp).2.length ≤ 1 ∧
      ∀ e ∈ (autopilotLoop st inp).2,
        e.1 = inp.now ∧ e.2 ∉ st.cfg.blacklist ∧
          lookupPos st.store e.2 = none ∧
          st.cfg.cooldownMs ≤ inp.now - st.cfg.lastBuyAt) ∧
    (∀ (st : ApState) (inps : List PassIn),
      List.Chain' (fun a b => st.cfg.cooldownMs ≤ b.1 - a.1)
        ((st.cfg.lastBuyAt, "") :: (autopilotRun st inps).2)) := by
  constructor
  · intro st inp
    rcases autopilotLoop_spec st inp with ⟨h1, _⟩ | ⟨m, h1, _, hcool, hban, hheld⟩
    · rw [h1]
      exact ⟨by simp, by simp⟩
    · rw [h1]
      refine ⟨by simp, ?_⟩
      intro e he
      simp only [List.mem_singleton] at he
      subst he
      exact ⟨rfl, hban, hheld, hcool⟩
  · intro st inps
    exact autopilotRun_chain st.cfg.cooldownMs inps st rfl

/-- Witness for C7: a concrete pass (defaults, empty store, one hot pair,
buy succeeding at t = 3600000 with `lastBuyAt = 0` and a 30-minute
cooldown) logs exactly the entry `(3600000, "HOTMINT")`, whose mint the
claim certifies as unblacklisted and unheld, with the cooldown elapsed. -/
theorem autopilot_c7_witness :
    (autopilotLoop ⟨apCfg0, []⟩ passIn0).2.length ≤ 1 ∧
    ((3600000 : ℤ) = passIn0.now ∧ "HOTMINT" ∉ apCfg0.blacklist ∧
      lookupPos ([] : PosStore) "HOTMINT" = none ∧
      apCfg0.cooldownMs ≤ passIn0.now - apCfg0.lastBuyAt) := by
  have hpass : (autopilotLoop ⟨apCfg0, []⟩ passIn0).2 =
      [(3600000, "HOTMINT")] := by
    norm_num [autopilotLoop, apCfg0, passIn0, selectCandidates, pairPasses,
      pairHot, lastTriedAt, lookupPos, scorePair, pickLoop, attemptLoop,
      List.mergeSort_singleton, setLastTried, mkPosition]
  have h := autopilot_c7.1 ⟨apCfg0, []⟩ passIn0
  refine ⟨h.1, h.2 (3600000, "HOTMINT") ?_⟩
  rw [hpass]
  exact List.mem_singleton.mpr rfl

/-- Claim C7 counterexample: under the program's real scheduling the async
`autopilotLoop` is re-invoked by `setInterval` every 60 s even while a
previous invocation is suspended at an await, and the global cooldown gate
(`Date.now() - AUTOPILOT.lastBuyAt < cooldownMs`, checked only at
invocation start) then reads a stale `lastBuyAt`.  In the concrete schedule
`sched0` a second tick fires 60 s into a running pass, both invocations
pass the gate against `lastBuyAt = 0`, and their buys both succeed — two
successful autonomous entries 500 ms apart, far inside one 30-minute
cooldown window, refuting the global at-most-one-entry-per-window claim. -/
theorem autopilot_c7_counterexample :
    (apRun sys0 sched0).log = [(3661500, "HOTMINT"), (3662000, "HOT2")] ∧
    (3662000 : ℤ) - 3661500 < apCfg0.cooldownMs := by
  have hx : (decide (("HOTMINT" : String) = "HOT2")) = false := by decide
  have hsel1 : selectCandidates [] apCfg0 3600500 [pairHot] = ["HOTMINT"] := by
    norm_num [selectCandidates, pairPasses, pairHot, lastTriedAt, lookupPos,
      scorePair, pickLoop, List.mergeSort_singleton, apCfg0]
  have hsel2 : selectCandidates []
      { apCfg0 with lastTried := [("HOTMINT", 3600500)] } 3660500 [pairHot2] =
      ["HOT2"] := by
    norm_num [selectCandidates, pairPasses, pairHot2, lastTriedAt, lookupPos,
      scorePair, pickLoop, List.mergeSort_singleton, apCfg0, List.find?, hx]
  have hen : apCfg0.enabled = true := rfl
  have hlb : apCfg0.lastBuyAt = 0 := rfl
  have hcd : apCfg0.cooldownMs = 1800000 := rfl
  have hlt : apCfg0.lastTried = [] := rfl
  have h1 : apStep sys0 (.spawn 3600000) =
      { shared := ⟨apCfg0, []⟩, tasks := [.atFetch], log := [] } := by
    norm_num [apStep, sys0, hen, hlb, hcd]
  have h2 : apStep { shared := ⟨apCfg0, []⟩, tasks := [.atFetch], log := [] }
      (.fetchDone 0 3600500 (some [pairHot])) =
      { shared := ⟨{ apCfg0 with lastTried := [("HOTMINT", 3600500)] }, []⟩,
        tasks := [.atVerify ["HOTMINT"]], log := [] } := by
    simp [apStep, hsel1, enterCand, setLastTried, hlt]
  have h3 : apStep
      { shared := ⟨{ apCfg0 with lastTried := [("HOTMINT", 3600500)] }, []⟩,
        tasks := [.atVerify ["HOTMINT"]], log := [] }
      (.spawn 3660000) =
      { shared := ⟨{ apCfg0 with lastTried := [("HOTMINT", 3600500)] }, []⟩,
        tasks := [.atVerify ["HOTMINT"], .atFetch], log := [] } := by
    norm_num [apStep, hen, hlb, hcd]
  have h4 : apStep
      { shared := ⟨{ apCfg0 with lastTried := [("HOTMINT", 3600500)] }, []⟩,
        tasks := [.atVerify ["HOTMINT"], .atFetch], log := [] }
      (.fetchDone 1 3660500 (some [pairHot2])) =
      { shared := ⟨{ apCfg0 with
          lastTried := [("HOTMINT", 3600500), ("HOT2", 3660500)] }, []⟩,
        tasks := [.atVerify ["HOTMINT"], .atVerify ["HOT2"]], log := [] } := by
    simp [apStep, hsel2, enterCand, setLastTried, hx]
  have h5 : apStep
      { shared := ⟨{ apCfg0 with
          lastTried := [("HOTMINT", 3600500), ("HOT2", 3660500)] }, []⟩,
        tasks := [.atVerify ["HOTMINT"], .atVerify ["HOT2"]], log := [] }
      (.verifyDone 0 3661000 true) =
      { shared := ⟨{ apCfg0 with
          lastTried := [("HOTMINT", 3600500), ("HOT2", 3660500)] }, []⟩,
        tasks := [.atBuy ["HOTMINT"], .atVerify ["HOT2"]], log := [] } := by
    simp [apStep]
  have h6 : apStep
      { shared := ⟨{ apCfg0 with
          lastTried := [("HOTMINT", 3600500), ("HOT2", 3660500)] }, []⟩,
        tasks := [.atBuy ["HOTMINT"], .atVerify ["HOT2"]], log := [] }
      (.verifyDone 1 3661050 true) =
      { shared := ⟨{ apCfg0 with
          lastTried := [("HOTMINT", 3600500), ("HOT2", 3660500)] }, []⟩,
        tasks := [.atBuy ["HOTMINT"], .atBuy ["HOT2"]], log := [] } := by
    simp [apStep]
  have h7 : apStep
      { shared := ⟨{ apCfg0 with
          lastTried := [("HOTMINT", 3600500), ("HOT2", 3660500)] }, []⟩,
        tasks := [.atBuy ["HOTMINT"], .atBuy ["HOT2"]], log := [] }
      (.buyDone 0 3661500 (some (5000, 20000000, 1))) =
      { shared := ⟨{ apCfg0 with
            lastTried := [("HOTMINT", 3600500), ("HOT2", 3660500)]
            lastBuyAt := 3661500 },
          insertPos [] "HOTMINT"
            (mkPosition "HOTMINT" 20000000 5000 3661500 "SCALP-THIN-AUTO")⟩,
        tasks := [.finished, .atBuy ["HOT2"]],
        log := [(3661500, "HOTMINT")] } := by
    simp [apStep]
  have h8 : apStep
      { shared := ⟨{ apCfg0 with
            lastTried := [("HOTMINT", 3600500), ("HOT2", 3660500)]
            lastBuyAt := 3661500 },
          insertPos [] "HOTMINT"
            (mkPosition "HOTMINT" 20000000 5000 3661500 "SCALP-THIN-AUTO")⟩,
        tasks := [.finished, .atBuy ["HOT2"]],
        log := [(3661500, "HOTMINT")] }
      (.buyDone 1 3662000 (some (4000, 20000000, 1))) =
      { shared := ⟨{ apCfg0 with
            lastTried := [("HOTMINT", 3600500), ("HOT2", 3660500)]
            lastBuyAt := 3662000 },
          insertPos
            (insertPos [] "HOTMINT"
              (mkPosition "HOTMINT" 20000000 5000 3661500 "SCALP-THIN-AUTO"))
            "HOT2"
            (mkPosition "HOT2" 20000000 4000 3662000 "SCALP-THIN-AUTO")⟩,
        tasks := [.finished, .finished],
        log := [(3661500, "HOTMINT"), (3662000, "HOT2")] } := by
    simp [apStep]
  have hrun : apRun sys0 sched0 =
      { shared := ⟨{ apCfg0 with
            lastTried := [("HOTMINT", 3600500), ("HOT2", 3660500)]
            lastBuyAt := 3662000 },
          insertPos
            (insertPos [] "HOTMINT"
              (mkPosition "HOTMINT" 20000000 5000 3661500 "SCALP-THIN-AUTO"))
            "HOT2"
            (mkPosition "HOT2" 20000000 4000 3662000 "SCALP-THIN-AUTO")⟩,
        tasks := [.finished, .finished],
        log := [(3661500, "HOTMINT"), (3662000, "HOT2")] } := by
    simp only [apRun, sched0, List.foldl]
    rw [h1, h2, h3, h4, h5, h6, h7, h8]
  constructor
  · rw [hrun]
  · rw [hcd]
    norm_num

/-- Claim C8 counterexample: a monitor pass over a position whose pnl hits
neither threshold (entry 1 SOL, re-priced value 1 SOL) mutates the store in
memory (`positions[mint].lastCheck = now`) and then returns — and on the
TP/SL paths awaits the sell — without any `savePositions()` call covering
that mutation, so not every store mutation is persisted before the task
yields. -/
theorem persist_c8_counterexample :
    allFlushed (fun _ => true)
      (monitorPosTrace posScalp true 5 true 1000000000 true) = false := by
  norm_num [monitorPosTrace, posScalp, estSolOf, pnlPctOf, SCALP_TP_PCT,
    SCALP_SL_PCT, allFlushed, flushedBy]

/-- Helper: the autopilot candidate loop durably persists every mutation
before the next suspension point. -/
theorem attemptsTrace_flushed :
    ∀ attempts, allFlushed (fun _ => true) (attemptsTrace attempts) = true := by
  intro attempts
  induction attempts with
  | nil => rfl
  | cons a rest ih =>
    obtain ⟨v, b⟩ := a
    cases v <;> cases b <;>
      simp [attemptsTrace, allFlushed, flushedBy, ih]

/-- Claim C8 (amended): in the monitor loop, every position-store and
autopilot-config mutation **except the per-pass `lastCheck` timestamp
update** is followed by a durable full rewrite of the corresponding file
before the task suspends or returns; in the autopilot loop every mutation
(`lastTried`, the new position, `lastBuyAt`) is persisted before the next
suspension point, on every path including failures. -/
theorem persist_c8_flushed :
    (∀ (p : Position) (balOk : Bool) (bal : ℕ) (estOk : Bool) (est : ℕ)
        (sellOk : Bool),
      allFlushed (fun t => t != "lastCheck")
        (monitorPosTrace p balOk bal estOk est sellOk) = true) ∧
    (∀ (enabled cooldownPassed fetchOk : Bool)
        (attempts : List (Bool × Bool)),
      allFlushed (fun _ => true)
        (apPassTrace enabled cooldownPassed fetchOk attempts) = true) := by
  constructor
  · intro p balOk bal estOk est sellOk
    unfold monitorPosTrace
    split_ifs <;> simp_all [allFlushed, flushedBy] <;>
      split_ifs <;> simp_all [allFlushed, flushedBy]
  · intro enabled cooldownPassed fetchOk attempts
    unfold apPassTrace
    split_ifs <;> first
      | rfl
      | simpa [allFlushed] using attemptsTrace_flushed attempts

end SolScalp
